import Mathlib

/-!
Verification development for the TimeMagic repository (a Russian-language
Telegram planner bot).  The Python sources under `src/core` and
`src/adapters` are shallowly embedded below: texts are lists of characters,
`datetime` values are seconds since 1970-01-01T00:00:00 (local clock, no
time zone), and the regular expressions of the source are embedded as
deterministic character-level matchers that follow the leftmost-match /
ordered-alternation / greedy-with-forced-backtracking semantics of the
concrete patterns used by the code.  Timestamps exchanged with storage are
modelled post-ISO-parse (the source serialises with `isoformat` and parses
with `fromisoformat`, which round-trip; the defensive `except` branches for
unparsable stored strings are dead on data the program itself wrote).
-/

/-- Texts are lists of characters (Python `str` at code-point level). -/
abbrev Text := List Char

/-- Coerce a Lean string literal to a `Text`. -/
def txt (s : String) : Text := s.data

/-- Python `\s` / `str.split()` whitespace for the characters that occur here. -/
def isPySpace (c : Char) : Bool :=
  c = ' ' || c = '\t' || c = '\n' || c = '\r' || c = '\x0b' || c = '\x0c'

/-- Python `\w` (re.UNICODE) restricted to the alphabets the program uses:
ASCII alphanumerics, underscore, and the Cyrillic letters А-я plus Ё/ё. -/
def isPyWordChar (c : Char) : Bool :=
  c.isAlphanum || c = '_' ||
  (0x410 ≤ c.toNat && c.toNat ≤ 0x44F) || c.toNat = 0x401 || c.toNat = 0x451

/-- Python `str.lower` for ASCII and Cyrillic (А-Я → а-я, Ё → ё). -/
def pyLowerChar (c : Char) : Char :=
  if 'A' ≤ c ∧ c ≤ 'Z' then Char.ofNat (c.toNat + 32)
  else if 0x410 ≤ c.toNat ∧ c.toNat ≤ 0x42F then Char.ofNat (c.toNat + 32)
  else if c.toNat = 0x401 then Char.ofNat 0x451
  else c

/-- Python `str.lower` over a text. -/
def pyLower (s : Text) : Text := s.map pyLowerChar

/-- Case-insensitive character comparison against a lowercase pattern char. -/
def cieq (c pat : Char) : Bool := pyLowerChar c = pat

/-- Whether `p` is a prefix of `s` (case-insensitive, `p` lowercase). -/
def leadsWith (p : Text) (s : Text) : Bool :=
  match p, s with
  | [], _ => true
  | _ :: _, [] => false
  | a :: p', c :: s' => cieq c a && leadsWith p' s'

/-- Python `sub in s` substring containment (case-sensitive, used on
already-lowercased text by the source). -/
def containsSub (s : Text) (sub : Text) : Bool :=
  match s with
  | [] => sub = []
  | _ :: s' => leadsWith sub s || containsSub s' sub

/-- Match a literal (case-insensitive) pattern, returning the rest. -/
def litCI (p : Text) (s : Text) : Option Text :=
  match p, s with
  | [], _ => some s
  | _ :: _, [] => none
  | a :: p', c :: s' => if cieq c a then litCI p' s' else none

/-- Regex `\s+`: at least one whitespace character. -/
def ws1 (s : Text) : Option Text :=
  match s with
  | [] => none
  | c :: s' => if isPySpace c then some (s'.dropWhile isPySpace) else none

/-- Regex `\s*`. -/
def wsStar (s : Text) : Text := s.dropWhile isPySpace

/-- Split a maximal run of ASCII digits off the front: (digits, rest). -/
def digitsSplit (s : Text) : Text × Text :=
  (s.takeWhile Char.isDigit, s.dropWhile Char.isDigit)

/-- Numeric value of a digit string (as Python `int`). -/
def natOfDigits (ds : Text) : Nat :=
  ds.foldl (fun n c => n * 10 + (c.toNat - '0'.toNat)) 0

/-- Digit value of a single character. -/
def dval (c : Char) : Nat := c.toNat - '0'.toNat

/-- Word boundary `\b` before the current position, given the previous char. -/
def bndBefore (prev : Option Char) : Bool :=
  match prev with
  | none => true
  | some c => !isPyWordChar c

/-- Word boundary `\b` after a match, looking at the rest of the text. -/
def bndAfter (s : Text) : Bool :=
  match s with
  | [] => true
  | c :: _ => !isPyWordChar c

/-- Date separator `[./]`. -/
def isDateSep (c : Char) : Bool := c = '.' || c = '/'

/-- Generic `re.search`: try the matcher at every position, left to right.
Returns (text before the match, captures, text after the match). -/
def searchGo (m : Option Char → Text → Option (γ × Text)) :
    Text → Option Char → Text → Option (Text × γ × Text)
  | accRev, prev, s =>
    match m prev s with
    | some (g, rest) => some (accRev.reverse, g, rest)
    | none =>
      match s with
      | [] => none
      | c :: s' => searchGo m (c :: accRev) (some c) s'

/-- Search a whole text from the start. -/
def searchT (m : Option Char → Text → Option (γ × Text)) (s : Text) :
    Option (Text × γ × Text) :=
  searchGo m [] none s

/-- Search, keeping only the captures. -/
def searchCap (m : Option Char → Text → Option (γ × Text)) (s : Text) :
    Option γ :=
  (searchT m s).map (fun x => x.2.1)

/-- First alternative of an ordered alternation that matches literally. -/
def altLit (ws : List Text) (s : Text) : Option (Text × Text) :=
  match ws with
  | [] => none
  | w :: ws' =>
    match litCI w s with
    | some r => some (w, r)
    | none => altLit ws' s

/-- First alternative that matches literally and is followed by `\b`. -/
def altLitBnd (ws : List Text) (s : Text) : Option (Text × Text) :=
  match ws with
  | [] => none
  | w :: ws' =>
    match litCI w s with
    | some r => if bndAfter r then some (w, r) else altLitBnd ws' s
    | none => altLitBnd ws' s

/-!  Date and time model: a `datetime` is the count of seconds since
1970-01-01T00:00:00; 1970-01-01 was a Thursday (Python weekday 3). -/

/-- Seconds since 1970-01-01T00:00:00 of the implicit local clock. -/
abbrev DT := Int

/-- Python `datetime.date()` as an epoch day number (floor division). -/
def dtDay (t : DT) : Int := t / 86400

/-- Seconds since local midnight. -/
def dtSod (t : DT) : Int := t % 86400

/-- Python `datetime.weekday()`: Monday = 0.  1970-01-01 is Thursday (3). -/
def pyWeekday (t : DT) : Int := (dtDay t + 3) % 7

/-- Build an instant from an epoch day and an hour/minute/second of day. -/
def mkDT (day : Int) (h m s : Nat) : DT :=
  day * 86400 + (h * 3600 + m * 60 + s : Nat)

/-- Hour component (0-23) of an instant. -/
def dtHour (t : DT) : Int := dtSod t / 3600

/-- Minute component (0-59) of an instant. -/
def dtMinute (t : DT) : Int := (dtSod t / 60) % 60

/-- Second component (0-59) of an instant. -/
def dtSecond (t : DT) : Int := dtSod t % 60

/-- Python `dt.replace(hour=h, minute=m, second=0, microsecond=0)`. -/
def dtReplaceHM (t : DT) (h m : Nat) : DT := mkDT (dtDay t) h m 0

/-- Leap-year test of the proleptic Gregorian calendar. -/
def isLeap (y : Int) : Bool :=
  y % 4 = 0 && (y % 100 ≠ 0 || y % 400 = 0)

/-- Length of a month. -/
def daysInMonth (y m : Int) : Int :=
  if m = 1 then 31 else if m = 2 then (if isLeap y then 29 else 28)
  else if m = 3 then 31 else if m = 4 then 30 else if m = 5 then 31
  else if m = 6 then 30 else if m = 7 then 31 else if m = 8 then 31
  else if m = 9 then 30 else if m = 10 then 31 else if m = 11 then 30
  else 31

/-- Epoch day number of a civil date (days-from-civil algorithm). -/
def daysFromCivil (y m d : Int) : Int :=
  let y' := if m ≤ 2 then y - 1 else y
  let era := y' / 400
  let yoe := y' - era * 400
  let mp := if m > 2 then m - 3 else m + 9
  let doy := (153 * mp + 2) / 5 + d - 1
  let doe := yoe * 365 + yoe / 4 - yoe / 100 + doy
  era * 146097 + doe - 719468

/-- Civil date (year, month, day) of an epoch day number. -/
def civilFromDays (z0 : Int) : Int × Int × Int :=
  let z := z0 + 719468
  let era := z / 146097
  let doe := z - era * 146097
  let yoe := (doe - doe / 1460 + doe / 36524 - doe / 146096) / 365
  let y := yoe + era * 400
  let doy := doe - (365 * yoe + yoe / 4 - yoe / 100)
  let mp := (5 * doy + 2) / 153
  let d := doy - (153 * mp + 2) / 5 + 1
  let m := if mp < 10 then mp + 3 else mp - 9
  (if m ≤ 2 then y + 1 else y, m, d)

/-- Year of an instant. -/
def dtYear (t : DT) : Int := (civilFromDays (dtDay t)).1

/-- Month of an instant. -/
def dtMonth (t : DT) : Int := (civilFromDays (dtDay t)).2.1

/-- Day-of-month of an instant. -/
def dtDom (t : DT) : Int := (civilFromDays (dtDay t)).2.2

/-- Python `datetime(year, month, day)` validity: raises ValueError outside
year 1..9999 or an invalid month/day; otherwise yields the epoch day. -/
def mkDate? (y m d : Int) : Option Int :=
  if 1 ≤ y ∧ y ≤ 9999 ∧ 1 ≤ m ∧ m ≤ 12 ∧ 1 ≤ d ∧ d ≤ daysInMonth y m then
    some (daysFromCivil y m d)
  else none

/-!  Weekday tables of `src/core/parser.py`. -/

/-- DOW_MAP_EVENT of `parser.py` (nominative/accusative forms). -/
def dowMapEvent (w : Text) : Option Int :=
  if w = txt "понедельник" then some 0 else if w = txt "пн" then some 0
  else if w = txt "вторник" then some 1 else if w = txt "вт" then some 1
  else if w = txt "среда" then some 2 else if w = txt "среду" then some 2
  else if w = txt "ср" then some 2
  else if w = txt "четверг" then some 3 else if w = txt "чт" then some 3
  else if w = txt "пятница" then some 4 else if w = txt "пятницу" then some 4
  else if w = txt "пт" then some 4
  else if w = txt "суббота" then some 5 else if w = txt "субботу" then some 5
  else if w = txt "сб" then some 5
  else if w = txt "воскресенье" then some 6 else if w = txt "вс" then some 6
  else none

/-- DOW_MAP_DUE of `parser.py` (genitive forms). -/
def dowMapDue (w : Text) : Option Int :=
  if w = txt "понедельника" then some 0 else if w = txt "пн" then some 0
  else if w = txt "вторника" then some 1 else if w = txt "вт" then some 1
  else if w = txt "среды" then some 2 else if w = txt "ср" then some 2
  else if w = txt "четверга" then some 3 else if w = txt "чт" then some 3
  else if w = txt "пятницы" then some 4 else if w = txt "пт" then some 4
  else if w = txt "субботы" then some 5 else if w = txt "сб" then some 5
  else if w = txt "воскресенья" then some 6 else if w = txt "вс" then some 6
  else none

/-- Alternation of the deadline regex in `parse_due`, in pattern order. -/
def dueDowWords : List Text :=
  [txt "понедельника", txt "вторника", txt "среды", txt "четверга",
   txt "пятницы", txt "субботы", txt "воскресенья",
   txt "пн", txt "вт", txt "ср", txt "чт", txt "пт", txt "сб", txt "вс"]

/-- Matcher for `до\s+(понедельника|...|вс)` of `parse_due` (no `\b`). -/
def dueDowMatchAt (_prev : Option Char) (s : Text) : Option (Text × Text) :=
  match litCI (txt "до") s with
  | none => none
  | some s1 =>
    match ws1 s1 with
    | none => none
    | some s2 => altLit dueDowWords s2

/-- Regex `(\d{1,2})[./]`: up to two digits immediately followed by a date
separator (the only backtracking-viable shapes). Returns (value, rest). -/
def numThenSep (s : Text) : Option (Nat × Text) :=
  match s with
  | a :: b :: c :: r =>
    if a.isDigit && b.isDigit && isDateSep c then some (dval a * 10 + dval b, r)
    else if a.isDigit && isDateSep b then some (dval a, c :: r)
    else none
  | [a, b] => if a.isDigit && isDateSep b then some (dval a, []) else none
  | _ => none

/-- Regex `(\d{1,2})` greedy: one or two digits. Returns (value, rest). -/
def upTo2Digits (s : Text) : Option (Nat × Text) :=
  match s with
  | [] => none
  | [a] => if a.isDigit then some (dval a, []) else none
  | a :: b :: r =>
    if a.isDigit then
      if b.isDigit then some (dval a * 10 + dval b, r) else some (dval a, b :: r)
    else none

/-- Matcher for `до\s+(\d{1,2})[./](\d{1,2})(?:[./](\d{2,4}))?` of
`parse_due` (no word boundaries; the optional year is greedy, capped at 4
digits, with no trailing constraint). -/
def dueDateMatchAt (_prev : Option Char) (s : Text) :
    Option ((Nat × Nat × Option Nat) × Text) :=
  match litCI (txt "до") s with
  | none => none
  | some s1 =>
    match ws1 s1 with
    | none => none
    | some s2 =>
      match numThenSep s2 with
      | none => none
      | some (d, s3) =>
        match upTo2Digits s3 with
        | none => none
        | some (mo, s4) =>
          match s4 with
          | c :: r =>
            if isDateSep c then
              let (ds, r2) := digitsSplit r
              if 2 ≤ ds.length then
                some ((d, mo, some (natOfDigits (ds.take 4))), ds.drop 4 ++ r2)
              else some ((d, mo, none), s4)
            else some ((d, mo, none), s4)
          | [] => some ((d, mo, none), [])

/-- Python year completion shared by both date branches:
`2000 + y` for two-digit years, otherwise the year as written. -/
def fixYear (y : Nat) : Int := if y < 100 then 2000 + (y : Int) else (y : Int)

/-- parse_due of `src/core/parser.py`: deadline extraction.  The weekday
branch computes `(wd - now.weekday()) % 7` with NO wrap of a zero offset;
the numeric branch builds `datetime(year, month, day, 23, 59)` and returns
None on ValueError. -/
def parse_due (text : Text) (now : DT) : Option DT :=
  let t := pyLower text
  match searchCap dueDowMatchAt t with
  | some g =>
    match dowMapDue g with
    | some wd =>
      let days_ahead := (wd - pyWeekday now) % 7
      some (dtReplaceHM (now + days_ahead * 86400) 23 59)
    | none => none
  | none =>
    match searchCap dueDateMatchAt t with
    | some (d, mo, yOpt) =>
      let year : Int :=
        match yOpt with
        | some y => fixYear y
        | none =>
          -- Python tuple comparison `(month, day) < (now.month, now.day)`
          if (mo : Int) < dtMonth now ∨
              ((mo : Int) = dtMonth now ∧ (d : Int) < dtDom now) then
            dtYear now + 1
          else dtYear now
      match mkDate? year mo d with
      | some day => some (mkDT day 23 59 0)
      | none => none
    | none => none

/-- Reference instant 2024-01-01 09:00, a Monday (epoch day 19723). -/
def now0 : DT := mkDT 19723 9 0 0

/-!  Remaining matchers of the temporal normalizer. -/

/-- Minutes part `([0-5]\d)\b` of the time regexes, tagged with the hour. -/
def timeMinutes (h : Nat) (r : Text) : Option ((Nat × Nat) × Text) :=
  match r with
  | m0 :: m1 :: r2 =>
    if '0' ≤ m0 && m0 ≤ '5' && m1.isDigit && bndAfter r2 then
      some ((h, dval m0 * 10 + dval m1), r2)
    else none
  | _ => none

/-- Matcher for TIME_REGEX / TIME_ANY_REGEX `\b([01]?\d|2[0-3]):([0-5]\d)\b`.
The alternation tries the greedy `[01]?\d` first and `2[0-3]` second; the
only viable backtrackings collapse to the rule below. -/
def timeMatchAt (prev : Option Char) (s : Text) : Option ((Nat × Nat) × Text) :=
  if bndBefore prev then
    match s with
    | a :: b :: rest =>
      if (a = '0' || a = '1') && b.isDigit then
        match rest with
        | ':' :: r => timeMinutes (dval a * 10 + dval b) r
        | _ => none
      else if a.isDigit && b = ':' then timeMinutes (dval a) rest
      else if a = '2' && ('0' ≤ b && b ≤ '3') then
        match rest with
        | ':' :: r => timeMinutes (20 + dval b) r
        | _ => none
      else none
    | _ => none
  else none

/-- Matcher for DATE_REGEX `\b(\d{1,2})[./](\d{1,2})(?:[./](\d{2,4}))?\b`.
After the separator, only a digit run of length 1-2 can satisfy the
pattern; a year group survives exactly when its full digit run has length
2-4 and is followed by a boundary, otherwise the optional group is
dropped (the separator itself then provides the trailing boundary). -/
def dateMatchAt (prev : Option Char) (s : Text) :
    Option ((Nat × Nat × Option Nat) × Text) :=
  if bndBefore prev then
    match numThenSep s with
    | none => none
    | some (d, s1) =>
      let (ds, s2) := digitsSplit s1
      if ds.length = 0 || 2 < ds.length then none
      else
        let mo := natOfDigits ds
        match s2 with
        | c :: r =>
          if isDateSep c then
            let (ys, r2) := digitsSplit r
            if 2 ≤ ys.length && ys.length ≤ 4 && bndAfter r2 then
              some ((d, mo, some (natOfDigits ys)), r2)
            else some ((d, mo, none), s2)
          else if isPyWordChar c then none
          else some ((d, mo, none), s2)
        | [] => some ((d, mo, none), [])
  else none

/-- Tail of the `недел[юи]` alternative. -/
def nedelTail (r : Text) : Option (Text × Text) :=
  match r with
  | c :: r' =>
    if cieq c 'ю' then some (txt "неделю", r')
    else if cieq c 'и' then some (txt "недели", r')
    else none
  | [] => none

/-- Unit alternation of `parse_relative`, in pattern order:
`минут[уы]?|мин|час[аов]?|ч|дн[еяь]|день|дней|недел[юи]` (no boundaries).
After a successful `дн` literal whose class char fails, the later
alternatives `день`/`дней` cannot match either (their second or third
character contradicts the prefix already seen), and `дней` can never fire
at all because `дн[еяь]` always matches its prefix first. -/
def relUnit (s : Text) : Option (Text × Text) :=
  match litCI (txt "минут") s with
  | some r =>
    match r with
    | c :: r' =>
      if cieq c 'у' then some (txt "минуту", r')
      else if cieq c 'ы' then some (txt "минуты", r')
      else some (txt "минут", r)
    | [] => some (txt "минут", [])
  | none =>
  match litCI (txt "мин") s with
  | some r => some (txt "мин", r)
  | none =>
  match litCI (txt "час") s with
  | some r =>
    match r with
    | c :: r' =>
      if cieq c 'а' then some (txt "часа", r')
      else if cieq c 'о' then some (txt "часо", r')
      else if cieq c 'в' then some (txt "часв", r')
      else some (txt "час", r)
    | [] => some (txt "час", [])
  | none =>
  match litCI (txt "ч") s with
  | some r => some (txt "ч", r)
  | none =>
  match litCI (txt "дн") s with
  | some r =>
    match r with
    | c :: r' =>
      if cieq c 'е' then some (txt "дне", r')
      else if cieq c 'я' then some (txt "дня", r')
      else if cieq c 'ь' then some (txt "днь", r')
      else none
    | [] => none
  | none =>
  match litCI (txt "день") s with
  | some r2 => some (txt "день", r2)
  | none =>
  match litCI (txt "недел") s with
  | some r3 => nedelTail r3
  | none => none

/-- Matcher for `через\s+(\d+)\s*(unit)` of `parse_relative`. -/
def relMatchAt (_prev : Option Char) (s : Text) :
    Option ((Nat × Text) × Text) :=
  match litCI (txt "через") s with
  | none => none
  | some s1 =>
    match ws1 s1 with
    | none => none
    | some s2 =>
      let (ds, s3) := digitsSplit s2
      if ds.length = 0 then none
      else
        match relUnit (wsStar s3) with
        | some (u, r) => some ((natOfDigits ds, u), r)
        | none => none

/-- Weekday alternation of the event regexes in `parser.py`
(`понедельник|вторник|сред[ау]|четверг|пятниц[ау]|суббот[уы]|воскресенье|пн|вт|ср|чт|пт|сб|вс`),
character classes expanded in place.  Note `суббот[уы]` yields `субботы`,
which DOW_MAP_EVENT does not contain. -/
def eventDowWords : List Text :=
  [txt "понедельник", txt "вторник", txt "среда", txt "среду", txt "четверг",
   txt "пятница", txt "пятницу", txt "субботу", txt "субботы",
   txt "воскресенье",
   txt "пн", txt "вт", txt "ср", txt "чт", txt "пт", txt "сб", txt "вс"]

/-- Matcher for `\bво?\s+(weekday)\b`: optional `о` is viable only when
followed by whitespace (otherwise the `\s+` fails on both backtracks). -/
def dowPhraseMatchAt (words : List Text) (prev : Option Char) (s : Text) :
    Option (Text × Text) :=
  if bndBefore prev then
    match s with
    | c :: s1 =>
      if cieq c 'в' then
        match s1 with
        | o :: s2 =>
          if cieq o 'о' && (ws1 s2).isSome then
            match ws1 s2 with
            | some s3 => altLitBnd words s3
            | none => none
          else
            match ws1 s1 with
            | some s3 => altLitBnd words s3
            | none => none
        | [] => none
      else none
    | [] => none
  else none

/-- Matcher for the anchored `^(weekday)\b` of `parse_absolute` (re.match). -/
def dowStartMatch (s : Text) : Option (Text × Text) :=
  altLitBnd eventDowWords s

/-- PART_OF_DAY of `parser.py`, probed for containment in dict order. -/
def partOfDay (t : Text) : Option (Nat × Nat) :=
  if containsSub t (txt "утром") then some (10, 0)
  else if containsSub t (txt "днем") then some (14, 0)
  else if containsSub t (txt "днём") then some (14, 0)
  else if containsSub t (txt "вечером") then some (19, 0)
  else if containsSub t (txt "ночью") then some (23, 0)
  else none

/-!  Duration matchers. -/

/-- Leading alternation of the duration regexes:
`(на|продлится|продолжится|длительн\w*)` followed by `\s+`.  The
alternatives have pairwise-distinct viable first characters, so the
alternation is deterministic; `длительн\w*` greedily absorbs the whole
word-character run (shorter runs leave a word character where `\s+`
must match, so no backtrack is viable). -/
def durKey (s : Text) : Option Text :=
  match litCI (txt "на") s with
  | some r => ws1 r
  | none =>
  match litCI (txt "продлится") s with
  | some r => ws1 r
  | none =>
  match litCI (txt "продолжится") s with
  | some r => ws1 r
  | none =>
  match litCI (txt "длительн") s with
  | some r => ws1 (r.dropWhile isPyWordChar)
  | none => none

/-- Hour unit `(час(?:а|ов)?|ч)\b` of DURATION_PATTERN: greedy optional
suffix with boundary-forced backtracking. -/
def hourUnit (s : Text) : Option Text :=
  match litCI (txt "час") s with
  | some r =>
    match r with
    | c :: r' =>
      if cieq c 'а' && bndAfter r' then some r'
      else
        match litCI (txt "ов") r with
        | some r2 => if bndAfter r2 then some r2 else
            if bndAfter r then some r else none
        | none => if bndAfter r then some r else none
    | [] => some []
  | none =>
    match litCI (txt "ч") s with
    | some r => if bndAfter r then some r else none
    | none => none

/-- Minutes unit `(минут(?:ы|а)?|мин)` with no trailing boundary
(the optional tail group of DURATION_PATTERN). -/
def minUnitLoose (s : Text) : Option Text :=
  match altLit [txt "минуты", txt "минута", txt "минут", txt "мин"] s with
  | some (_, r) => some r
  | none => none

/-- Minutes unit `(минут(?:ы|а)?|мин)\b` (DURATION_MINS_ONLY_PATTERN). -/
def minUnitBnd (s : Text) : Option Text :=
  match altLitBnd [txt "минуты", txt "минута", txt "минут", txt "мин"] s with
  | some (_, r) => some r
  | none => none

/-- Optional tail `(?:\s*(?P<mins>\d+)\s*(минут(?:ы|а)?|мин))?` of
DURATION_PATTERN: on any internal failure the whole group is skipped. -/
def minsOptTail (s : Text) : Option (Nat × Text) :=
  let s1 := wsStar s
  let (ds, s2) := digitsSplit s1
  if ds.length = 0 then none
  else
    match minUnitLoose (wsStar s2) with
    | some r => some (natOfDigits ds, r)
    | none => none

/-- Matcher for DURATION_PATTERN of `parser.py`. -/
def durMatchAt (prev : Option Char) (s : Text) :
    Option ((Nat × Option Nat) × Text) :=
  if bndBefore prev then
    match durKey s with
    | none => none
    | some s1 =>
      let (ds, s2) := digitsSplit s1
      if ds.length = 0 then none
      else
        match hourUnit (wsStar s2) with
        | none => none
        | some s3 =>
          match minsOptTail s3 with
          | some (m, s4) => some ((natOfDigits ds, some m), s4)
          | none => some ((natOfDigits ds, none), s3)
  else none

/-- Matcher for DURATION_MINS_ONLY_PATTERN of `parser.py`. -/
def durMinsOnlyMatchAt (prev : Option Char) (s : Text) :
    Option (Nat × Text) :=
  if bndBefore prev then
    match durKey s with
    | none => none
    | some s1 =>
      let (ds, s2) := digitsSplit s1
      if ds.length = 0 then none
      else
        match minUnitBnd (wsStar s2) with
        | some r => some (natOfDigits ds, r)
        | none => none
  else none

/-!  String cleanup helpers of `parser.py`. -/

/-- Python `str.strip()` (default whitespace). -/
def pyStrip (s : Text) : Text :=
  ((s.dropWhile isPySpace).reverse.dropWhile isPySpace).reverse

/-- Python `str.rstrip()` (default whitespace). -/
def pyRStrip (s : Text) : Text :=
  (s.reverse.dropWhile isPySpace).reverse

/-- The strip set `" ,.-"` used by the parser. -/
def isStripChar (c : Char) : Bool := c = ' ' || c = ',' || c = '.' || c = '-'

/-- Python `str.strip(" ,.-")`. -/
def stripSet (s : Text) : Text :=
  ((s.dropWhile isStripChar).reverse.dropWhile isStripChar).reverse

/-- Python `str.split()` word splitting (whitespace runs). -/
def wordsGo : Text → Text → List Text
  | [], acc => if acc.isEmpty then [] else [acc.reverse]
  | c :: s, acc =>
    if isPySpace c then
      if acc.isEmpty then wordsGo s [] else acc.reverse :: wordsGo s []
    else wordsGo s (c :: acc)

/-- Join word lists with single spaces (`" ".join(ws)`). -/
def joinWords : List Text → Text
  | [] => []
  | [w] => w
  | w :: ws => w ++ ' ' :: joinWords ws

/-- `_strip_spaces` of `parser.py`: `" ".join(s.split())`. -/
def stripSpaces (s : Text) : Text := joinWords (wordsGo s [])

/-- `_remove_trailing_v` of `parser.py`: `re.sub(r"\bв$", "", s).strip(" ,.-")`
(case-sensitive; a match needs a non-word character, or nothing, before the
final `в`). -/
def removeTrailingV (s : Text) : Text :=
  let dropped :=
    match s.reverse with
    | 'в' :: rest =>
      if bndBefore rest.head? then rest.reverse else s
    | _ => s
  stripSet dropped

/-!  The parser's public functions. -/

/-- parse_duration of `src/core/parser.py`: extract one duration phrase and
return the duration in seconds together with the text with the matched
span removed (`s[:m.start()] + s[m.end():]`, then `strip(" ,.-")` and
whitespace normalization). -/
def parse_duration (text : Text) : Option Int × Text :=
  match searchT durMatchAt text with
  | some (before, (h, mOpt), after) =>
    let dur : Int := h * 3600 + (mOpt.getD 0) * 60
    (some dur, stripSpaces (stripSet (before ++ after)))
  | none =>
    match searchT durMinsOnlyMatchAt text with
    | some (before, m, after) =>
      (some ((m : Int) * 60), stripSpaces (stripSet (before ++ after)))
    | none => (none, text)

/-- `_next_weekday` of `parser.py`: strictly-future weekday resolution
(a zero offset wraps to seven days). -/
def nextWeekdayDT (now : DT) (wd : Int) : DT :=
  let days_ahead := (wd - pyWeekday now) % 7
  let days_ahead := if days_ahead = 0 then 7 else days_ahead
  now + days_ahead * 86400

/-- parse_relative of `src/core/parser.py`: "через N unit" offsets.  A
matched unit that falls through every `startswith` branch (the literal
`день`) yields no result. -/
def parse_relative (text : Text) (now : DT) : Option (DT × DT) :=
  match searchCap relMatchAt (pyLower text) with
  | none => none
  | some (n, unit) =>
    let start? : Option DT :=
      if leadsWith (txt "мин") unit then some (now + n * 60)
      else if leadsWith (txt "час") unit || unit = txt "ч" then
        some (now + n * 3600)
      else if leadsWith (txt "дн") unit then some (now + n * 86400)
      else if leadsWith (txt "недел") unit then some (now + n * 604800)
      else none
    match start? with
    | some start => some (start, start + 30 * 60)
    | none => none

/-- parse_absolute of `src/core/parser.py`: resolve a date by the
`послезавтра`/`завтра`/`сегодня` chain, then (each overriding the last)
an `в <weekday>` phrase, a leading weekday word, and an explicit numeric
date; then pick a clock time (HH:MM, else part-of-day, else 10:00). -/
def parse_absolute (text : Text) (now : DT) : Option (DT × DT) :=
  let t := pyLower text
  let base := dtDay now
  let st0 : Int × Bool :=
    if containsSub t (txt "послезавтра") then (base + 2, true)
    else if containsSub t (txt "завтра") then (base + 1, true)
    else if containsSub t (txt "сегодня") then (base, true)
    else (base, false)
  let st1 : Int × Bool :=
    match searchCap (dowPhraseMatchAt eventDowWords) t with
    | some g =>
      match dowMapEvent g with
      | some wd => (dtDay (nextWeekdayDT now wd), true)
      | none => st0
    | none => st0
  let st2 : Int × Bool :=
    match dowStartMatch t with
    | some (g, _) =>
      match dowMapEvent g with
      | some wd => (dtDay (nextWeekdayDT now wd), true)
      | none => st1
    | none => st1
  let st3 : Int × Bool :=
    match searchCap dateMatchAt t with
    | some (d, mo, yOpt) =>
      let year : Int :=
        match yOpt with
        | some y => fixYear y
        | none =>
          if (mo : Int) < dtMonth now ∨
              ((mo : Int) = dtMonth now ∧ (d : Int) < dtDom now) then
            dtYear now + 1
          else dtYear now
      match mkDate? year mo d with
      | some day => (day, true)
      | none => st2
    | none => st2
  match searchCap timeMatchAt t with
  | some (h, mi) =>
    let start := mkDT st3.1 h mi 0
    some (start, start + 30 * 60)
  | none =>
    match partOfDay t with
    | some (h, mi) =>
      let start := mkDT st3.1 h mi 0
      some (start, start + 30 * 60)
    | none =>
      if st3.2 then
        let start := mkDT st3.1 10 0 0
        some (start, start + 30 * 60)
      else none

/-- parse_datetime of `src/core/parser.py`: relative offsets take priority
over absolute resolution. -/
def parse_datetime (text : Text) (now : DT) : Option (DT × DT) :=
  match parse_relative text now with
  | some se => some se
  | none => parse_absolute text now

/-- Split on the first line break (Python `split("\n", 1)`): (first line,
remainder). -/
def splitFirstNl (s : Text) : Text × Text :=
  match s with
  | [] => ([], [])
  | c :: s' =>
    if c = '\n' then ([], s')
    else
      let (a, b) := splitFirstNl s'
      (c :: a, b)

/-- Whether the text contained a line break at all (Python keeps a
one-element list when there is none, making the description empty). -/
def hasNl (s : Text) : Bool := s.any (· = '\n')

/-- The cleaned first line of `split_title_desc` before the length cap:
duration phrase removed, whitespace collapsed, dangling `в` dropped,
`" ,.-"` stripped, empty result replaced by the placeholder. -/
def cleanedTitle (text : Text) : Text :=
  let parts := splitFirstNl (pyStrip text)
  let title := pyStrip parts.1
  let tc := (parse_duration title).2
  let tc := removeTrailingV (stripSpaces tc)
  if tc.isEmpty then txt "Без названия" else tc

/-- split_title_desc of `src/core/parser.py`: first line → title (cleaned,
capped at 120 characters via `[:117].rstrip() + "..."`), rest → description. -/
def split_title_desc (text : Text) : Text × Text :=
  let stripped := pyStrip text
  if stripped.isEmpty then (txt "Без названия", []) else
    let desc := if hasNl stripped then pyStrip (splitFirstNl stripped).2 else []
    let tc := cleanedTitle text
    let tc := if 120 < tc.length then pyRStrip (tc.take 117) ++ txt "..." else tc
    (tc, desc)

/-- `_extract_task_weekday_due` of `parser.py`: an `в <weekday>` phrase in a
task yields that (strictly future) weekday at 23:59. -/
def extract_task_weekday_due (text : Text) (now : DT) : Option DT :=
  let t := pyLower text
  match searchCap (dowPhraseMatchAt eventDowWords) t with
  | none => none
  | some g =>
    match dowMapEvent g with
    | none => none
    | some wd => some (dtReplaceHM (nextWeekdayDT now wd) 23 59)

/-- EVENT_KEYWORDS of `parser.py`. -/
def eventKeywords : List Text :=
  [txt "встреч", txt "созвон", txt "звонок", txt "бриф", txt "интервью",
   txt "демо"]

/-- TASK_KEYWORDS of `parser.py`. -/
def taskKeywords : List Text :=
  [txt "сделать", txt "написать", txt "подготовить", txt "проверить",
   txt "купить", txt "отправить", txt "собрать", txt "позвонить",
   txt "настроить", txt "разобрать", txt "сдать", txt "закончить",
   txt "доделать", txt "проработать"]

/-- Case-sensitive prefix test (used on already-lowercased text). -/
def startsWithT (s : Text) (p : Text) : Bool :=
  match p, s with
  | [], _ => true
  | _ :: _, [] => false
  | a :: p', c :: s' => c = a && startsWithT s' p'

/-- `any(k in t for k in EVENT_KEYWORDS)` of `classify`. -/
def isEventKw (t : Text) : Bool :=
  eventKeywords.any (fun k => containsSub t k)

/-- `any(t.startswith(k) or f" {k}" in t for k in TASK_KEYWORDS)` of
`classify`. -/
def isTaskKw (t : Text) : Bool :=
  taskKeywords.any (fun k => startsWithT t k || containsSub t (' ' :: k))

/-- classify of `src/core/parser.py`: type decision plus temporal fields.
A Python `if dur:` on a timedelta is false for a zero duration, hence the
explicit non-zero test on the duration override. -/
def classify (text : Text) (now : DT) :
    String × Option DT × Option DT × Option DT :=
  let raw := pyStrip text
  if raw.isEmpty then ("note", none, none, none) else
    let t := pyLower raw
    let se := parse_datetime raw now
    let event_kw := isEventKw t
    let task_kw := isTaskKw t
    let due0 := parse_due raw now
    let due_dt :=
      if task_kw && due0.isNone then
        match extract_task_weekday_due raw now with
        | some d => some d
        | none => due0
      else due0
    let item_type : String :=
      if task_kw || due_dt.isSome then "task"
      else if event_kw || se.isSome then "event"
      else "note"
    let start_dt := se.map (·.1)
    let end_dt := se.map (·.2)
    let end_dt :=
      if item_type = "event" && se.isSome then
        match parse_duration raw with
        | (some dur, _) =>
          if dur ≠ 0 then start_dt.map (· + dur) else end_dt
        | (none, _) => end_dt
      else end_dt
    (item_type, start_dt, end_dt, due_dt)

/-!  `src/core/models.py` and `src/core/storage.py`: the Item record and an
in-memory model of the SQLite table (a list of rows; `insert_item` appends
and assigns the next autoincrement id). -/

/-- Item of `src/core/models.py`. -/
structure Item where
  user_id : Text
  type : String
  title : Text
  description : Text
  start_at : Option DT
  end_at : Option DT
  due_at : Option DT
  status : String
  id : Option Nat
deriving DecidableEq

/-- insert_item of `storage.py`: append and assign the row id. -/
def insert_item (db : List Item) (it : Item) : List Item × Item :=
  let it := { it with id := some (db.length + 1) }
  (db ++ [it], it)

/-- Zero-pad a natural number to a given width. -/
def padNum (w : Nat) (n : Nat) : Text :=
  let ds := txt (toString n)
  List.replicate (w - ds.length) '0' ++ ds

/-- ISO date `YYYY-MM-DD` of an epoch day. -/
def isoDate (day : Int) : Text :=
  let (y, m, d) := civilFromDays day
  padNum 4 y.toNat ++ txt "-" ++ padNum 2 m.toNat ++ txt "-" ++ padNum 2 d.toNat

/-- Python `datetime.isoformat()` (microseconds never set here). -/
def isoDT (t : DT) : Text :=
  isoDate (dtDay t) ++ txt "T" ++ padNum 2 (dtHour t).toNat ++ txt ":" ++
    padNum 2 (dtMinute t).toNat ++ txt ":" ++ padNum 2 (dtSecond t).toNat

/-- strftime `%H:%M`. -/
def fmtHM (t : DT) : Text :=
  padNum 2 (dtHour t).toNat ++ txt ":" ++ padNum 2 (dtMinute t).toNat

/-- strftime `%d.%m.%Y`. -/
def fmtDMY (t : DT) : Text :=
  let (y, m, d) := civilFromDays (dtDay t)
  padNum 2 d.toNat ++ txt "." ++ padNum 2 m.toNat ++ txt "." ++ padNum 4 y.toNat

/-- strftime `%d.%m.%Y %H:%M`. -/
def fmtDMYHM (t : DT) : Text := fmtDMY t ++ txt " " ++ fmtHM t

/-!  `src/core/service.py`.  Stored timestamps are modelled post-ISO-parse:
the service writes them with `isoformat` and reads them back with
`fromisoformat`, which round-trips, so the defensive failure branches of
`_parse_interval` and of the conflict-payload builder are unreachable on
data the program wrote and the row carries its timestamps directly. -/

/-- `_load_user_events` of `service.py`: active events with a start, as
`(id, title, start_at, end_at)` rows. -/
def load_user_events (db : List Item) (uid : Text) :
    List (Option Nat × Text × DT × Option DT) :=
  (db.filter (fun it =>
      it.user_id = uid && it.type = "event" && it.status = "active" &&
      it.start_at.isSome)).filterMap
    (fun it => it.start_at.map (fun s => (it.id, it.title, s, it.end_at)))

/-- `_parse_interval` of `service.py`: classify a stored row as a point
(`end` missing or not after `start`) or an interval. -/
def parse_interval (s : DT) (e? : Option DT) : Bool × DT × DT :=
  match e? with
  | some e => if e ≤ s then (false, s, s) else (true, s, e)
  | none => (false, s, s)

/-- `_find_event_conflict` of `service.py`: first stored event whose
point/interval span collides with the candidate span. -/
def find_event_conflict (db : List Item) (uid : Text) (new_start : DT)
    (new_end : Option DT) : Option (Option Nat × Text × DT × Option DT) :=
  let newIsInterval :=
    match new_end with
    | some e => new_start < e
    | none => false
  let ne := if newIsInterval then new_end.getD new_start else new_start
  (load_user_events db uid).find? (fun row =>
    let (exInterval, exS, exE) := parse_interval row.2.2.1 row.2.2.2
    if !newIsInterval && !exInterval then decide (new_start = exS)
    else if !newIsInterval && exInterval then
      decide (exS ≤ new_start ∧ new_start < exE)
    else if newIsInterval && !exInterval then
      decide (new_start ≤ exS ∧ exS < ne)
    else decide (¬(ne ≤ exS ∨ exE ≤ new_start)))

/-- `_extract_explicit_duration_minutes` of `service.py`: matcher for
`\bна\s+(\d+)\s*(минут|мин|час|часа|часов)\b`. -/
def explicitDurMatchAt (prev : Option Char) (s : Text) :
    Option ((Nat × Text) × Text) :=
  if bndBefore prev then
    match litCI (txt "на") s with
    | none => none
    | some r =>
      match ws1 r with
      | none => none
      | some s1 =>
        let (ds, s2) := digitsSplit s1
        if ds.length = 0 then none
        else
          match altLitBnd [txt "минут", txt "мин", txt "час", txt "часа",
              txt "часов"] (wsStar s2) with
          | some (u, rest) => some ((natOfDigits ds, u), rest)
          | none => none
  else none

/-- `_extract_explicit_duration_minutes` of `service.py`: minutes of an
explicit `на N <unit>` phrase, 0 when absent. -/
def extract_explicit_duration_minutes (text : Text) : Int :=
  match searchCap explicitDurMatchAt (pyLower text) with
  | none => 0
  | some (n, u) => if leadsWith (txt "мин") u then (n : Int) else (n : Int) * 60

/-- Event-slot computation of `handle_input` (service.py lines 135-153):
default slot tomorrow 10:00 when the parser produced no start; the end
comes from a valid parsed end, else from an explicit duration, else the
event is a point (`end = None`). -/
def eventSlot (text : Text) (now : DT) (start0 end0 : Option DT) :
    DT × Option DT × Int :=
  let start_dt :=
    match start0 with
    | some s => s
    | none => mkDT (dtDay now + 1) 10 0 0
  let explicit_dur := extract_explicit_duration_minutes text
  match end0 with
  | some e =>
    if start_dt < e then (start_dt, some e, (e - start_dt) / 60)
    else if 0 < explicit_dur then
      (start_dt, some (start_dt + explicit_dur * 60), explicit_dur)
    else (start_dt, none, 0)
  | none =>
    if 0 < explicit_dur then
      (start_dt, some (start_dt + explicit_dur * 60), explicit_dur)
    else (start_dt, none, 0)

/-- Conflict payload of `handle_input`:
`__CONFLICT__|day|conf_title|conf_start|conf_end|new_title|duration_min`. -/
def conflictPayload (start_dt : DT) (ctitle : Text) (cs : DT) (ce : DT)
    (title : Text) (duration_min : Int) : Text :=
  txt "__CONFLICT__|" ++ isoDate (dtDay start_dt) ++ txt "|" ++ ctitle ++
    txt "|" ++ isoDT cs ++ txt "|" ++ isoDT ce ++ txt "|" ++ title ++
    txt "|" ++ txt (toString duration_min)

/-- handle_input of `src/core/service.py`: classify, normalize the title,
then insert an event (after a clean conflict check), a task, or a note.
Returns (reply, created item or None, updated storage). -/
def handle_input (db : List Item) (uid : Text) (text : Text) (now : DT) :
    Text × Option Item × List Item :=
  let cls := classify text now
  let item_type := cls.1
  let start0 := cls.2.1
  let end0 := cls.2.2.1
  let due_dt := cls.2.2.2
  let td := split_title_desc text
  let title := td.1
  let desc := td.2
  if item_type = "event" then
    let slot := eventSlot text now start0 end0
    let start_dt := slot.1
    let end_dt := slot.2.1
    let duration_min := slot.2.2
    match find_event_conflict db uid start_dt end_dt with
    | some (_cid, ctitle, cs, ceOpt) =>
      let ce := ceOpt.getD cs
      (conflictPayload start_dt ctitle cs ce title duration_min, none, db)
    | none =>
      let ins := insert_item db
        { user_id := uid, type := "event", title := title,
          description := desc, start_at := some start_dt, end_at := end_dt,
          due_at := none, status := "active", id := none }
      let times :=
        match end_dt with
        | some e => fmtDMYHM start_dt ++ txt " - " ++ fmtHM e
        | none => fmtDMYHM start_dt
      (txt "Добавил событие: " ++ title ++ txt "\n" ++ times, some ins.2, ins.1)
  else if item_type = "task" then
    let ins := insert_item db
      { user_id := uid, type := "task", title := title, description := desc,
        start_at := none, end_at := none, due_at := due_dt,
        status := "active", id := none }
    match due_dt with
    | some d =>
      (txt "Добавил задачу: " ++ title ++ txt " (к " ++ fmtDMY d ++ txt ")",
       some ins.2, ins.1)
    | none => (txt "Добавил задачу: " ++ title, some ins.2, ins.1)
  else
    let ins := insert_item db
      { user_id := uid, type := "note", title := title, description := desc,
        start_at := none, end_at := none, due_at := none,
        status := "active", id := none }
    (txt "Добавил заметку.", some ins.2, ins.1)

/-!  `src/adapters/telegram_bot.py`: rendering helpers, the per-day split,
and the pending-conflict resolution step of `handle_text`. -/

/-- Weekday alternation of WEEKDAY_IN_TEXT_PATTERN of the bot (order as in
the pattern: accusative before nominative for среда/пятница/суббота). -/
def botDowWords : List Text :=
  [txt "понедельник", txt "вторник", txt "среду", txt "среда", txt "четверг",
   txt "пятницу", txt "пятница", txt "субботу", txt "суббота",
   txt "воскресенье",
   txt "пн", txt "вт", txt "ср", txt "чт", txt "пт", txt "сб", txt "вс"]

/-- Python `re.sub(pattern, "", s)`: remove every non-overlapping match,
scanning left to right (word boundaries are judged on the original text). -/
def subAllGo (m : Option Char → Text → Option (γ × Text)) :
    Nat → Option Char → Text → Text
  | 0, _, s => s
  | fuel + 1, prev, s =>
    match searchGo m [] prev s with
    | none => s
    | some (b, _, rest) =>
      let prev' := (s.take (s.length - rest.length)).getLast?
      b ++ subAllGo m fuel prev' rest

/-- Remove every match of a pattern from a text. -/
def subAll (m : Option Char → Text → Option (γ × Text)) (s : Text) : Text :=
  subAllGo m (s.length + 1) none s

/-- `has_explicit_date_or_time` of the bot. -/
def has_explicit_date_or_time (text : Text) : Bool :=
  let t := pyLower text
  (searchCap timeMatchAt t).isSome || (searchCap dateMatchAt t).isSome

/-- `is_end_of_day` of the bot: 23:59:00. -/
def is_end_of_day (t : DT) : Bool :=
  dtHour t = 23 && dtMinute t = 59 && dtSecond t = 0

/-- `is_default_morning` of the bot: 10:00:00. -/
def is_default_morning (t : DT) : Bool :=
  dtHour t = 10 && dtMinute t = 0 && dtSecond t = 0

/-- `strip_weekday_phrase` of the bot. -/
def strip_weekday_phrase (text : Text) (defaultLabel : Text) : Text :=
  let clean := stripSet (subAll (dowPhraseMatchAt botDowWords) text)
  if clean.isEmpty then defaultLabel else clean

/-- format_timed_line of the bot: `📆 <b>label</b> cleaned-title`, with
weekday/date/time substrings and a dangling `в` stripped at render time. -/
def format_timed_line (base : Text) (start? end? : Option DT) : Text :=
  let b := pyStrip base
  let b := if b.isEmpty then txt "Без названия" else b
  let b := stripSet (subAll (dowPhraseMatchAt botDowWords) b)
  let b := stripSet (subAll dateMatchAt b)
  let b := stripSet (subAll timeMatchAt b)
  let b := removeTrailingV b
  let b := if b.isEmpty then txt "Без названия" else b
  match start? with
  | none => txt "📆 " ++ b
  | some s =>
    let label :=
      match end? with
      | some e => if s < e then fmtHM s ++ txt "-" ++ fmtHM e else fmtHM s
      | none => fmtHM s
    txt "📆 <b>" ++ label ++ txt "</b> " ++ b

/-- `extract_time_prefix` of `split_items_for_day`: sorting key of a
rendered line — minutes of the first clock time, 9999 when none. -/
def lineKey (s : Text) : Nat :=
  match searchCap timeMatchAt s with
  | some (h, m) => h * 60 + m
  | none => 9999

/-- One event row of `split_items_for_day`: `some (inl line)` for a timed
line, `some (inr entry)` for the all-day bucket, `none` when skipped. -/
def evEntry (day_start day_end : DT) (row : Text × Option DT × Option DT) :
    Option (Text ⊕ Text) :=
  match row.2.1 with
  | none => none
  | some sdt =>
    if day_start ≤ sdt ∧ sdt < day_end then
      let base := if (pyStrip row.1).isEmpty then txt "Без названия"
        else pyStrip row.1
      if is_default_morning sdt && !has_explicit_date_or_time base then
        some (Sum.inr (strip_weekday_phrase base (txt "Запись")))
      else some (Sum.inl (format_timed_line base (some sdt) row.2.2))
    else none

/-- One task row of `split_items_for_day`. -/
def taskEntry (day_start day_end : DT) (row : Text × Option DT) :
    Option (Text ⊕ Text) :=
  let base := if (pyStrip row.1).isEmpty then txt "Задача" else pyStrip row.1
  match row.2 with
  | none => none
  | some dt =>
    if day_start ≤ dt ∧ dt < day_end then
      if !is_end_of_day dt then
        some (Sum.inl (format_timed_line base (some dt) none))
      else if (searchCap timeMatchAt base).isSome then
        some (Sum.inl (format_timed_line base none none))
      else some (Sum.inr (strip_weekday_phrase base (txt "Задача")))
    else none

/-- The `timed` list of `split_items_for_day` before sorting: events first,
then tasks, in row order. -/
def collectTimed (events : List (Text × Option DT × Option DT))
    (tasks : List (Text × Option DT)) (day_start day_end : DT) : List Text :=
  (events.filterMap (fun r =>
      match evEntry day_start day_end r with
      | some (Sum.inl l) => some l
      | _ => none)) ++
  (tasks.filterMap (fun r =>
      match taskEntry day_start day_end r with
      | some (Sum.inl l) => some l
      | _ => none))

/-- The all-day bucket of `split_items_for_day`: events first, then tasks. -/
def collectDayTasks (events : List (Text × Option DT × Option DT))
    (tasks : List (Text × Option DT)) (day_start day_end : DT) : List Text :=
  (events.filterMap (fun r =>
      match evEntry day_start day_end r with
      | some (Sum.inr l) => some l
      | _ => none)) ++
  (tasks.filterMap (fun r =>
      match taskEntry day_start day_end r with
      | some (Sum.inr l) => some l
      | _ => none))

/-- Python `sorted(timed, key=extract_time_prefix)`: a stable sort by the
line key (insertion sort is stable with this reflexive total order, so it
computes the same list as CPython's stable Timsort). -/
def pySortTimed (l : List Text) : List Text :=
  List.insertionSort (fun a b => lineKey a ≤ lineKey b) l

/-- split_items_for_day of the bot: build the timed lines and the all-day
bucket of one calendar day, the timed lines sorted by their first clock
time. -/
def split_items_for_day (events : List (Text × Option DT × Option DT))
    (tasks : List (Text × Option DT)) (day_start day_end : DT) :
    List Text × List Text :=
  (pySortTimed (collectTimed events tasks day_start day_end),
   collectDayTasks events tasks day_start day_end)

/-- Bot TIME_REGEX `^([01]?\d|2[0-3]):([0-5]\d)$` via `fullmatch`. -/
def timeFullmatch (s : Text) : Option (Nat × Nat) :=
  match timeMatchAt none s with
  | some (hm, rest) => if rest.isEmpty then some hm else none
  | none => none

/-- Bot `DATE_REGEX.fullmatch`. -/
def dateFullmatch (s : Text) : Option (Nat × Nat × Option Nat) :=
  match dateMatchAt none s with
  | some (g, rest) => if rest.isEmpty then some g else none
  | none => none

/-- Pending-conflict state of the bot (PENDING_CONFLICTS value for one
user): `{day, title, duration}`; the day is stored as an ISO date string
in the source and always parses back, so it is modelled as the epoch day. -/
structure Pending where
  day : Int
  title : Text
  duration : Int
deriving DecidableEq

/-- Observable outcome of one pending-mode step of `handle_text`. -/
inductive PendingAction where
  /-- A synthesized event text is fed back into `handle_input`. -/
  | resolved (synth : Text)
  /-- The day was updated; the bot asks for a time and stays pending. -/
  | askTime
  /-- The message is processed as an ordinary new input. -/
  | newInput (t : Text)
deriving DecidableEq

/-- Pending-resolution step of `handle_text` (telegram_bot.py lines
652-718), given the stripped incoming message: returns the pending state
that remains for the user after the handler, and what was done.  Branch
order: bare `HH:MM`; a date and a time together; a bare date (which keeps
the pending state, updating its day, unless the date is invalid); anything
else. -/
def handle_text_pending (p : Pending) (text0 : Text) (now : DT) :
    Option Pending × PendingAction :=
  let text := pyStrip text0
  match timeFullmatch text with
  | some (h, m) =>
    let start_dt := mkDT p.day h m 0
    let synth :=
      if 0 < p.duration then
        p.title ++ txt " " ++ fmtDMYHM start_dt ++ txt " на " ++
          txt (toString p.duration) ++ txt " минут"
      else p.title ++ txt " " ++ fmtDMYHM start_dt
    (none, PendingAction.resolved synth)
  | none =>
    if (searchCap dateMatchAt text).isSome && (searchCap timeMatchAt text).isSome then
      let synth :=
        if 0 < p.duration then
          p.title ++ txt " " ++ text ++ txt " на " ++
            txt (toString p.duration) ++ txt " минут"
        else p.title ++ txt " " ++ text
      (none, PendingAction.resolved synth)
    else
      match dateFullmatch text with
      | some (d, mo, yOpt) =>
        let y : Int :=
          match yOpt with
          | some yr => fixYear yr
          | none => dtYear now
        match mkDate? y mo d with
        | some newDay => (some { p with day := newDay }, PendingAction.askTime)
        | none => (none, PendingAction.newInput text)
      | none => (none, PendingAction.newInput text)

/-- Convenience: an active stored event row. -/
def mkEventRow (uid ti : Text) (i : Option Nat) (s : DT) (e : Option DT) :
    Item :=
  { user_id := uid, type := "event", title := ti, description := [],
    start_at := some s, end_at := e, due_at := none,
    status := "active", id := i }

/-!  Theorems.  Shared helper lemmas come first; each claim's theorems are
marked with the claim id in their doc comments. -/

/-- Shifting an instant by whole days shifts its calendar day by as much. -/
theorem dtDay_add_mul (t : DT) (k : Int) : dtDay (t + k * 86400) = dtDay t + k := by
  unfold dtDay
  omega

/-- Helper for C5: conflict of a fresh interval against one stored interval. -/
theorem conflict_singleton_interval (i : Option Nat) (ti uid : Text)
    (s1 e1 s2 e2 : DT) (h1 : s1 < e1) (h2 : s2 < e2) :
    ((find_event_conflict [mkEventRow uid ti i s1 (some e1)] uid s2
        (some e2)).isSome ↔ (s2 < e1 ∧ s1 < e2)) := by
  simp only [mkEventRow, find_event_conflict, load_user_events, List.filter,
    List.filterMap, parse_interval, List.find?]
  have hh1 : (if e1 ≤ s1 then ((false : Bool), s1, s1) else ((true : Bool), s1, e1))
      = (true, s1, e1) := if_neg (not_le.mpr h1)
  have hh2 : decide (s2 < e2) = true := decide_eq_true h2
  simp only [hh1, hh2]
  simp only [Bool.not_true, Bool.and_false, Bool.false_and, Bool.and_true,
    Bool.true_and, if_false, Option.getD]
  simp
  cases hA : decide (s1 < e2) <;> cases hB : decide (s2 < e1) <;> simp_all

/-- C5: for two interval events (end strictly after start), the conflict
detector reports a collision exactly when the half-open spans overlap,
and symmetrically in insertion order — whichever of the two is already
stored, the outcome is the same. -/
theorem interval_conflict_iff_overlap (i : Option Nat) (ti uid : Text)
    (s1 e1 s2 e2 : DT) (h1 : s1 < e1) (h2 : s2 < e2) :
    ((find_event_conflict [mkEventRow uid ti i s1 (some e1)] uid s2
        (some e2)).isSome ↔ (s2 < e1 ∧ s1 < e2)) ∧
    ((find_event_conflict [mkEventRow uid ti i s2 (some e2)] uid s1
        (some e1)).isSome ↔ (s2 < e1 ∧ s1 < e2)) := by
  refine ⟨conflict_singleton_interval i ti uid s1 e1 s2 e2 h1 h2, ?_⟩
  rw [conflict_singleton_interval i ti uid s2 e2 s1 e1 h2 h1]
  exact and_comm

/-- C5 (witness): back-to-back intervals 10:00-11:00 and 11:00-12:00 never
collide in either insertion order; the containing pair 10:00-12:00 and
11:00-11:30 collides in both orders. -/
theorem interval_conflict_iff_overlap_witness :
    ((find_event_conflict [mkEventRow (txt "42") (txt "a") none
        (mkDT 19724 10 0 0) (some (mkDT 19724 11 0 0))] (txt "42")
        (mkDT 19724 11 0 0) (some (mkDT 19724 12 0 0))).isSome = false) ∧
    ((find_event_conflict [mkEventRow (txt "42") (txt "a") none
        (mkDT 19724 11 0 0) (some (mkDT 19724 12 0 0))] (txt "42")
        (mkDT 19724 10 0 0) (some (mkDT 19724 11 0 0))).isSome = false) ∧
    ((find_event_conflict [mkEventRow (txt "42") (txt "a") none
        (mkDT 19724 10 0 0) (some (mkDT 19724 12 0 0))] (txt "42")
        (mkDT 19724 11 0 0) (some (mkDT 19724 11 30 0))).isSome = true) ∧
    ((find_event_conflict [mkEventRow (txt "42") (txt "a") none
        (mkDT 19724 11 0 0) (some (mkDT 19724 11 30 0))] (txt "42")
        (mkDT 19724 10 0 0) (some (mkDT 19724 12 0 0))).isSome = true) := by
  have hbb := interval_conflict_iff_overlap none (txt "a") (txt "42")
    (mkDT 19724 10 0 0) (mkDT 19724 11 0 0) (mkDT 19724 11 0 0)
    (mkDT 19724 12 0 0) (by decide) (by decide)
  have hct := interval_conflict_iff_overlap none (txt "a") (txt "42")
    (mkDT 19724 10 0 0) (mkDT 19724 12 0 0) (mkDT 19724 11 0 0)
    (mkDT 19724 11 30 0) (by decide) (by decide)
  refine ⟨?_, ?_, ?_, ?_⟩
  · exact Bool.eq_false_iff.mpr (fun hs => (by decide : ¬((mkDT 19724 11 0 0 : Int) <
      mkDT 19724 11 0 0 ∧ (mkDT 19724 10 0 0 : Int) < mkDT 19724 12 0 0)) (hbb.1.mp hs))
  · exact Bool.eq_false_iff.mpr (fun hs => (by decide : ¬((mkDT 19724 11 0 0 : Int) <
      mkDT 19724 11 0 0 ∧ (mkDT 19724 10 0 0 : Int) < mkDT 19724 12 0 0)) (hbb.2.mp hs))
  · exact hct.1.mpr (by decide)
  · exact hct.2.mpr (by decide)

/-- C1 (counterexample): on 2024-01-01, a Monday, the deadline phrase
`до понедельника` resolves to 23:59 of that very Monday — not to the next
occurrence of the weekday strictly after `now` (+7 days) that the claim
demands. -/
theorem parse_due_same_weekday_counterexample :
    parse_due (txt "сдать отчет до понедельника") now0 =
      some (mkDT 19723 23 59 0) ∧
    dtDay (mkDT 19723 23 59 0) = dtDay now0 ∧ pyWeekday now0 = 0 ∧
    dowMapDue (txt "понедельника") = some 0 := by decide

/-- C1 (amended): a `до <weekday>` deadline resolves to 23:59:00 of
`now + ((wd - now.weekday()) mod 7)` days — the next occurrence at or
after `now`, a zero offset staying on `now`'s own date (no +7 wrap,
unlike event weekday resolution). -/
theorem parse_due_weekday_resolution (text : Text) (now : DT) (g : Text)
    (wd : Int) (hg : searchCap dueDowMatchAt (pyLower text) = some g)
    (hwd : dowMapDue g = some wd) :
    parse_due text now =
      some (mkDT (dtDay now + (wd - pyWeekday now) % 7) 23 59 0) := by
  simp only [parse_due, hg, hwd, dtReplaceHM, dtDay_add_mul]

/-- C1 (witness): the amended theorem applied to `до пятницы` at `now0`. -/
theorem parse_due_weekday_resolution_witness :
    parse_due (txt "до пятницы") now0 =
      some (mkDT (dtDay now0 + ((4 : Int) - pyWeekday now0) % 7) 23 59 0) :=
  parse_due_weekday_resolution (txt "до пятницы") now0 (txt "пятницы") 4
    (by decide) (by decide)

/-- C2 (counterexample): with a pending resolution present, the date-only
message `13.11` does not clear the pending state — it survives with an
updated target day (and the bot asks for a time). -/
theorem pending_date_only_counterexample :
    (handle_text_pending { day := 19723, title := txt "встреча", duration := 30 }
        (txt "13.11") now0) =
      (some { day := 20040, title := txt "встреча", duration := 30 },
       PendingAction.askTime) ∧
    (handle_text_pending { day := 19723, title := txt "встреча", duration := 30 }
        (txt "13.11") now0).1 ≠ none := by decide

/-- C2 (amended): after the message handler runs in pending-resolution
mode, the pending state is cleared in every case except one — a message
that is exactly a numeric date forming a valid calendar date, which keeps
the pending resolution alive with its target day updated (the bot then
prompts for a time). -/
theorem pending_cleared_unless_bare_valid_date (p : Pending) (t : Text)
    (now : DT) :
    (handle_text_pending p t now).1 = none ∨
      (dateFullmatch (pyStrip t) ≠ none ∧ ∃ nd,
        handle_text_pending p t now =
          (some { p with day := nd }, PendingAction.askTime)) := by
  unfold handle_text_pending
  cases h1 : timeFullmatch (pyStrip t) with
  | some hm => left; simp [h1]
  | none =>
    by_cases h2 : (searchCap dateMatchAt (pyStrip t)).isSome = true ∧
        (searchCap timeMatchAt (pyStrip t)).isSome = true
    · left; simp [h1, h2]
    · cases h3 : dateFullmatch (pyStrip t) with
      | none => left; simp [h1, h2, h3]
      | some g =>
        obtain ⟨d, mo, yOpt⟩ := g
        rcases yOpt with _ | yr
        · cases h4 : mkDate? (dtYear now) mo d with
          | none => left; simp [h1, h2, h3, h4]
          | some nd =>
            right
            refine ⟨by simp [h3], nd, ?_⟩
            simp [h1, h2, h3, h4]
        · cases h4 : mkDate? (fixYear yr) mo d with
          | none => left; simp [h1, h2, h3, h4]
          | some nd =>
            right
            refine ⟨by simp [h3], nd, ?_⟩
            simp [h1, h2, h3, h4]

/-- Digit characters have digit value at most 9. -/
theorem dval_le_of_isDigit (c : Char) (h : c.isDigit = true) : dval c ≤ 9 := by
  unfold dval
  simp [Char.isDigit, UInt32.le_def, BitVec.le_def] at h
  have hb : c.toNat = c.val.toBitVec.toNat := rfl
  have h0 : '0'.toNat = 48 := rfl
  rw [hb, h0]
  omega

/-- Characters in the class `[0-5]` have digit value at most 5. -/
theorem dval_le5 (c : Char) (h1 : '0' ≤ c) (h2 : c ≤ '5') : dval c ≤ 5 := by
  unfold dval
  simp [Char.le_def, UInt32.le_def, BitVec.le_def] at h1 h2
  have hb : c.toNat = c.val.toBitVec.toNat := rfl
  have h0 : '0'.toNat = 48 := rfl
  rw [hb, h0]
  omega

/-- Characters in the class `[0-3]` have digit value at most 3. -/
theorem dval_le3 (c : Char) (h1 : '0' ≤ c) (h2 : c ≤ '3') : dval c ≤ 3 := by
  unfold dval
  simp [Char.le_def, UInt32.le_def, BitVec.le_def] at h1 h2
  have hb : c.toNat = c.val.toBitVec.toNat := rfl
  have h0 : '0'.toNat = 48 := rfl
  rw [hb, h0]
  omega

/-- Any capture produced by a successful `searchGo` was produced by the
underlying position matcher. -/
theorem searchGo_cap_sound {γ : Type} (m : Option Char → Text → Option (γ × Text))
    (P : γ → Prop)
    (hm : ∀ prev s g rest, m prev s = some (g, rest) → P g) :
    ∀ s acc prev b g rest, searchGo m acc prev s = some (b, g, rest) → P g := by
  intro s
  induction s with
  | nil =>
    intro acc prev b g rest h
    rw [searchGo.eq_1] at h
    cases hmm : m prev [] with
    | some gr => rw [hmm] at h; cases gr; cases h; exact hm prev [] _ _ hmm
    | none => rw [hmm] at h; cases h
  | cons c s' ih =>
    intro acc prev b g rest h
    rw [searchGo.eq_2] at h
    cases hmm : m prev (c :: s') with
    | some gr =>
      rw [hmm] at h
      cases gr
      cases h
      exact hm prev (c :: s') _ _ hmm
    | none =>
      rw [hmm] at h
      exact ih (c :: acc) (some c) b g rest h

/-- The minutes matcher keeps the hour and bounds the minutes by 59. -/
theorem timeMinutes_bounds (h : Nat) (r : Text) (h' mi : Nat) (rest : Text)
    (he : timeMinutes h r = some ((h', mi), rest)) : h' = h ∧ mi ≤ 59 := by
  unfold timeMinutes at he
  split at he
  · rename_i m0 m1 r2
    split at he
    · rename_i hc
      cases he
      simp only [Bool.and_eq_true, decide_eq_true_eq] at hc
      have l1 := dval_le5 m0 hc.1.1.1 hc.1.1.2
      have l2 := dval_le_of_isDigit m1 hc.1.2
      omega
    · cases he
  · cases he

/-- A time match yields an hour at most 23 and minutes at most 59. -/
theorem timeMatchAt_bounds (prev : Option Char) (s : Text) (h mi : Nat)
    (rest : Text) (he : timeMatchAt prev s = some ((h, mi), rest)) :
    h ≤ 23 ∧ mi ≤ 59 := by
  unfold timeMatchAt at he
  split at he
  case isFalse => cases he
  case isTrue hb =>
    split at he
    case h_2 => cases he
    case h_1 a b r =>
      split at he
      case isTrue h1 =>
        simp only [Bool.and_eq_true, Bool.or_eq_true, decide_eq_true_eq] at h1
        split at he
        case h_2 => cases he
        case h_1 r' =>
          obtain ⟨hh, hm⟩ := timeMinutes_bounds _ _ _ _ _ he
          have l2 := dval_le_of_isDigit b h1.2
          have l1 : dval a ≤ 1 := by
            rcases h1.1 with h | h <;> subst h <;> decide
          omega
      case isFalse h1 =>
        split at he
        case isTrue h2 =>
          simp only [Bool.and_eq_true, decide_eq_true_eq] at h2
          obtain ⟨hh, hm⟩ := timeMinutes_bounds _ _ _ _ _ he
          have l1 := dval_le_of_isDigit a h2.1
          omega
        case isFalse h2 =>
          split at he
          case isTrue h3 =>
            simp only [Bool.and_eq_true, decide_eq_true_eq] at h3
            split at he
            case h_2 => cases he
            case h_1 r' =>
              obtain ⟨hh, hm⟩ := timeMinutes_bounds _ _ _ _ _ he
              have l1 := dval_le3 b h3.2.1 h3.2.2
              omega
          case isFalse h3 => cases he

/-- A successful time search yields an hour/minute pair within bounds. -/
theorem timeSearch_bounds (t : Text) (h mi : Nat)
    (he : searchCap timeMatchAt t = some (h, mi)) : h ≤ 23 ∧ mi ≤ 59 := by
  unfold searchCap searchT at he
  cases hs : searchGo timeMatchAt [] none t with
  | none => rw [hs] at he; cases he
  | some x =>
    rw [hs] at he
    obtain ⟨b, g, rest⟩ := x
    have hp := searchGo_cap_sound timeMatchAt (fun g => g.1 ≤ 23 ∧ g.2 ≤ 59)
      (fun prev s g rest hm => by
        obtain ⟨hh, mm⟩ := g
        exact timeMatchAt_bounds prev s hh mm rest hm) t [] none b g rest hs
    have hg : g = (h, mi) := by simpa using he
    rw [hg] at hp
    exact hp

/-- The calendar day of an instant built from a day and in-range clock
fields is that day. -/
theorem dtDay_mkDT (d : Int) (h m s : Nat) (hh : h ≤ 23) (hm : m ≤ 59)
    (hs : s ≤ 59) : dtDay (mkDT d h m s) = d := by
  unfold dtDay mkDT
  have hx : ((h * 3600 + m * 60 + s : Nat) : Int) < 86400 := by
    have hy : (h * 3600 + m * 60 + s : Nat) < 86400 := by omega
    exact_mod_cast hy
  have hx0 : (0 : Int) ≤ ((h * 3600 + m * 60 + s : Nat) : Int) := Int.natCast_nonneg _
  generalize ((h * 3600 + m * 60 + s : Nat) : Int) = x at hx hx0 ⊢
  omega

/-- Part-of-day constants are valid clock times. -/
theorem partOfDay_bounds (t : Text) (h mi : Nat)
    (he : partOfDay t = some (h, mi)) : h ≤ 23 ∧ mi ≤ 59 := by
  unfold partOfDay at he
  split_ifs at he <;> cases he <;> omega

/-- C3 (counterexample): `послезавтра` contains the substring `завтра`,
yet the datetime parser resolves it to `now.date + 2`, not `now.date + 1`. -/
theorem tomorrow_counterexample :
    containsSub (pyLower (txt "послезавтра")) (txt "завтра") = true ∧
    parse_datetime (txt "послезавтра") now0 =
      some (mkDT 19725 10 0 0, mkDT 19725 10 0 0 + 1800) ∧
    dtDay (mkDT 19725 10 0 0) ≠ dtDay now0 + 1 := by decide

/-- C3 (amended): for a text that contains `завтра` but not `послезавтра`,
has no relative-offset phrase, no weekday phrase (neither inline nor
leading), and no numeric date match, the parser returns a start on the
calendar day `now.date + 1`, independent of the time-of-day of `now`. -/
theorem tomorrow_resolves_next_day (text : Text) (now : DT)
    (hz : containsSub (pyLower text) (txt "завтра") = true)
    (hpz : containsSub (pyLower text) (txt "послезавтра") = false)
    (hrel : searchCap relMatchAt (pyLower text) = none)
    (hdowin : searchCap (dowPhraseMatchAt eventDowWords) (pyLower text) = none)
    (hdowst : dowStartMatch (pyLower text) = none)
    (hdate : searchCap dateMatchAt (pyLower text) = none) :
    ∃ s e, parse_datetime text now = some (s, e) ∧ dtDay s = dtDay now + 1 := by
  unfold parse_datetime parse_relative parse_absolute
  rw [hrel]
  simp only [hz, hpz, hdowin, hdowst, hdate, if_true, if_false]
  cases ht : searchCap timeMatchAt (pyLower text) with
  | some hm =>
    obtain ⟨h, mi⟩ := hm
    obtain ⟨bh, bm⟩ := timeSearch_bounds _ _ _ ht
    refine ⟨_, _, rfl, ?_⟩
    exact dtDay_mkDT _ h mi 0 bh bm (by omega)
  | none =>
    cases hp : partOfDay (pyLower text) with
    | some hm =>
      obtain ⟨h, mi⟩ := hm
      obtain ⟨bh, bm⟩ := partOfDay_bounds _ h mi hp
      refine ⟨_, _, rfl, ?_⟩
      exact dtDay_mkDT _ h mi 0 bh bm (by omega)
    | none =>
      refine ⟨_, _, rfl, ?_⟩
      exact dtDay_mkDT _ 10 0 0 (by omega) (by omega) (by omega)

/-- C3 (witness): the amended theorem applied to `завтра вечером` at `now0`. -/
theorem tomorrow_resolves_next_day_witness :
    ∃ s e, parse_datetime (txt "завтра вечером") now0 = some (s, e) ∧
      dtDay s = dtDay now0 + 1 :=
  tomorrow_resolves_next_day (txt "завтра вечером") now0 (by decide)
    (by decide) (by decide) (by decide) (by decide) (by decide)

/-- C7: the classifier follows the documented decision order — Task when a
task verb is present or a deadline exists (a task verb with no deadline but
an `в <weekday>` phrase synthesizes that weekday at 23:59 as the deadline),
else Event when an event keyword matched or the parser produced a start,
else Note; and the due field is exactly the (possibly synthesized)
deadline. -/
theorem classify_decision_order (text : Text) (now : DT) :
    ((classify text now).1 =
       (if isTaskKw (pyLower (pyStrip text)) ||
           (if isTaskKw (pyLower (pyStrip text)) &&
               (parse_due (pyStrip text) now).isNone then
              match extract_task_weekday_due (pyStrip text) now with
              | some d => some d
              | none => parse_due (pyStrip text) now
            else parse_due (pyStrip text) now).isSome then "task"
        else if isEventKw (pyLower (pyStrip text)) ||
            (parse_datetime (pyStrip text) now).isSome then "event"
        else "note") ∧
     (classify text now).2.2.2 =
       (if isTaskKw (pyLower (pyStrip text)) &&
           (parse_due (pyStrip text) now).isNone then
          match extract_task_weekday_due (pyStrip text) now with
          | some d => some d
          | none => parse_due (pyStrip text) now
        else parse_due (pyStrip text) now)) ∧
    (∀ g wd,
      searchCap (dowPhraseMatchAt eventDowWords) (pyLower text) = some g →
      dowMapEvent g = some wd →
      extract_task_weekday_due text now =
        some (mkDT (dtDay (nextWeekdayDT now wd)) 23 59 0)) := by
  constructor
  · by_cases hempty : (pyStrip text).isEmpty
    · have hraw : pyStrip text = [] := by
        cases hp : pyStrip text with
        | nil => rfl
        | cons c s => rw [hp] at hempty; simp [List.isEmpty] at hempty
      rw [hraw]
      unfold classify
      rw [hraw]
      have h1 : parse_due ([] : Text) now = none := rfl
      have h2 : parse_datetime ([] : Text) now = none := rfl
      have h3 : isTaskKw (pyLower ([] : Text)) = false := rfl
      have h4 : isEventKw (pyLower ([] : Text)) = false := rfl
      simp [h1, h2, h3, h4]
    · unfold classify
      simp only [hempty, Bool.false_eq_true, if_false]
      exact ⟨trivial, trivial⟩
  · intro g wd hg hwd
    simp only [extract_task_weekday_due, hg, hwd]
    rfl

/-- C7 (witness): the weekday-deadline synthesis conjunct applied to the
task text `сделать отчет во вторник` at `now0`. -/
theorem classify_decision_order_witness :
    extract_task_weekday_due (txt "сделать отчет во вторник") now0 =
      some (mkDT (dtDay (nextWeekdayDT now0 1)) 23 59 0) :=
  (classify_decision_order (txt "сделать отчет во вторник") now0).2
    (txt "вторник") 1 (by decide) (by decide)

/-- Helper: the classifier never reports an end time without a start. -/
theorem classify_end_none_of_start_none (text : Text) (now : DT)
    (h : (classify text now).2.1 = none) : (classify text now).2.2.1 = none := by
  unfold classify at h ⊢
  by_cases hempty : (pyStrip text).isEmpty
  · simp [hempty]
  · simp only [hempty, Bool.false_eq_true, if_false] at h ⊢
    cases hse : parse_datetime (pyStrip text) now with
    | none => simp [hse]
    | some p => simp [hse] at h

/-- Helper: the event slot when the parser produced neither start nor end. -/
theorem eventSlot_no_start (text : Text) (now : DT) :
    eventSlot text now none none =
      (mkDT (dtDay now + 1) 10 0 0,
       (if 0 < extract_explicit_duration_minutes text then
          some (mkDT (dtDay now + 1) 10 0 0 +
            extract_explicit_duration_minutes text * 60)
        else none),
       (if 0 < extract_explicit_duration_minutes text then
          extract_explicit_duration_minutes text else 0)) := by
  unfold eventSlot
  by_cases hd : 0 < extract_explicit_duration_minutes text <;> simp [hd]

/-- C10: a keyword-only event (classified Event with no parsed start) gets
the default slot 10:00 on the day after the current date; its end is the
start plus the explicit `на N <unit>` duration when such a phrase is
present, and None (a point event) otherwise. -/
theorem default_slot_event (db : List Item) (uid text : Text) (now : DT)
    (hcls : (classify text now).1 = "event")
    (hst : (classify text now).2.1 = none)
    (hconf : find_event_conflict db uid (mkDT (dtDay now + 1) 10 0 0)
        (if 0 < extract_explicit_duration_minutes text then
           some (mkDT (dtDay now + 1) 10 0 0 +
             extract_explicit_duration_minutes text * 60)
         else none) = none) :
    ∃ it, (handle_input db uid text now).2.1 = some it ∧
      (handle_input db uid text now).2.2 = db ++ [it] ∧
      it.type = "event" ∧
      it.start_at = some (mkDT (dtDay now + 1) 10 0 0) ∧
      it.end_at = (if 0 < extract_explicit_duration_minutes text then
           some (mkDT (dtDay now + 1) 10 0 0 +
             extract_explicit_duration_minutes text * 60)
         else none) := by
  have hend := classify_end_none_of_start_none text now hst
  simp only [handle_input]
  rw [hcls, hst, hend]
  simp only [eventSlot_no_start]
  rw [hconf]
  simp [insert_item]

/-- Helper: the conflict payload starts with the `__CONFLICT__|` tag. -/
theorem conflictPayload_starts (s : DT) (ct : Text) (cs ce : DT) (ti : Text)
    (dm : Int) :
    (conflictPayload s ct cs ce ti dm).take 13 = txt "__CONFLICT__|" := by
  unfold conflictPayload
  rw [show (13 : Nat) = (txt "__CONFLICT__|").length from rfl]
  simp only [List.append_assoc]
  exact List.take_left _ _

/-- C6: for an event-classified input, a reported collision makes the
orchestrator return the structured conflict payload with no item and
storage unchanged; an event record is appended exactly when the conflict
check is clean. -/
theorem conflict_blocks_insertion (db : List Item) (uid text : Text) (now : DT)
    (hcls : (classify text now).1 = "event") :
    (find_event_conflict db uid
        (eventSlot text now (classify text now).2.1 (classify text now).2.2.1).1
        (eventSlot text now (classify text now).2.1
          (classify text now).2.2.1).2.1 ≠ none →
      (handle_input db uid text now).2.2 = db ∧
      (handle_input db uid text now).2.1 = none ∧
      (handle_input db uid text now).1.take 13 = txt "__CONFLICT__|") ∧
    (find_event_conflict db uid
        (eventSlot text now (classify text now).2.1 (classify text now).2.2.1).1
        (eventSlot text now (classify text now).2.1
          (classify text now).2.2.1).2.1 = none →
      ∃ it, (handle_input db uid text now).2.1 = some it ∧
        (handle_input db uid text now).2.2 = db ++ [it]) := by
  simp only [handle_input]
  rw [hcls]
  simp only [if_pos rfl]
  cases hf : find_event_conflict db uid
      (eventSlot text now (classify text now).2.1 (classify text now).2.2.1).1
      (eventSlot text now (classify text now).2.1
        (classify text now).2.2.1).2.1 with
  | some c =>
    obtain ⟨cid, ctitle, cs, ceOpt⟩ := c
    constructor
    · intro _
      exact ⟨rfl, rfl, conflictPayload_starts _ _ _ _ _ _⟩
    · intro hn
      cases hn
  | none =>
    constructor
    · intro hn
      exact absurd rfl hn
    · intro _
      simp [insert_item]

/-- C10 (witness): the bare keyword `встреча` at `now0` with empty storage
is scheduled for tomorrow 10:00 as a point event. -/
theorem default_slot_event_witness :
    ∃ it, (handle_input [] (txt "42") (txt "встреча") now0).2.1 = some it ∧
      (handle_input [] (txt "42") (txt "встреча") now0).2.2 = [] ++ [it] ∧
      it.type = "event" ∧
      it.start_at = some (mkDT (dtDay now0 + 1) 10 0 0) ∧
      it.end_at = (if 0 < extract_explicit_duration_minutes (txt "встреча") then
           some (mkDT (dtDay now0 + 1) 10 0 0 +
             extract_explicit_duration_minutes (txt "встреча") * 60)
         else none) :=
  default_slot_event [] (txt "42") (txt "встреча") now0 (by decide) (by decide)
    (by decide)

/-- C6 (witness): `встреча завтра в 10:00` against a stored event occupying
2024-01-02 10:00-10:30 yields the conflict payload, no item, and unchanged
storage. -/
theorem conflict_blocks_insertion_witness :
    (handle_input [mkEventRow (txt "42") (txt "x") none (mkDT 19724 10 0 0)
        (some (mkDT 19724 10 30 0))] (txt "42")
        (txt "встреча завтра в 10:00") now0).2.2 =
      [mkEventRow (txt "42") (txt "x") none (mkDT 19724 10 0 0)
        (some (mkDT 19724 10 30 0))] ∧
    (handle_input [mkEventRow (txt "42") (txt "x") none (mkDT 19724 10 0 0)
        (some (mkDT 19724 10 30 0))] (txt "42")
        (txt "встреча завтра в 10:00") now0).2.1 = none ∧
    (handle_input [mkEventRow (txt "42") (txt "x") none (mkDT 19724 10 0 0)
        (some (mkDT 19724 10 30 0))] (txt "42")
        (txt "встреча завтра в 10:00") now0).1.take 13 =
      txt "__CONFLICT__|" :=
  (conflict_blocks_insertion
    [mkEventRow (txt "42") (txt "x") none (mkDT 19724 10 0 0)
      (some (mkDT 19724 10 30 0))] (txt "42")
    (txt "встреча завтра в 10:00") now0 (by decide)).1 (by decide)

/-- Helper: line keys never exceed the no-time sentinel 9999. -/
theorem lineKey_le (s : Text) : lineKey s ≤ 9999 := by
  unfold lineKey
  cases he : searchCap timeMatchAt s with
  | none => simp
  | some hm =>
    obtain ⟨h, m⟩ := hm
    obtain ⟨bh, bm⟩ := timeSearch_bounds s h m he
    simp
    omega

/-- Helper: the sentinel key marks exactly the lines with no clock time. -/
theorem lineKey_eq_iff_noTime (s : Text) :
    lineKey s = 9999 ↔ (searchCap timeMatchAt s).isNone = true := by
  unfold lineKey
  cases he : searchCap timeMatchAt s with
  | none => simp
  | some hm =>
    obtain ⟨h, m⟩ := hm
    obtain ⟨bh, bm⟩ := timeSearch_bounds s h m he
    simp
    omega

/-- Helper: inserting a timed line preserves the no-time subsequence. -/
theorem noTime_filter_orderedInsert_neg (x : Text) (L : List Text)
    (hx : (searchCap timeMatchAt x).isNone = false) :
    (List.orderedInsert (fun a b => lineKey a ≤ lineKey b) x L).filter
      (fun s => (searchCap timeMatchAt s).isNone) =
    L.filter (fun s => (searchCap timeMatchAt s).isNone) := by
  induction L with
  | nil => simp [List.orderedInsert, List.filter, hx]
  | cons b l ih =>
    unfold List.orderedInsert
    split
    · simp [List.filter, hx]
    · simp only [List.filter]
      cases hb : (searchCap timeMatchAt b).isNone <;> simp [hb, ih]

/-- Helper: inserting a no-time line prepends it to the no-time subsequence
(it sits before every other no-time line already inserted, which entered
the sorted list later in the original order). -/
theorem noTime_filter_orderedInsert_pos (x : Text) (L : List Text)
    (hx : (searchCap timeMatchAt x).isNone = true) :
    (List.orderedInsert (fun a b => lineKey a ≤ lineKey b) x L).filter
      (fun s => (searchCap timeMatchAt s).isNone) =
    x :: L.filter (fun s => (searchCap timeMatchAt s).isNone) := by
  have hkx : lineKey x = 9999 := (lineKey_eq_iff_noTime x).mpr hx
  induction L with
  | nil => simp [List.orderedInsert, List.filter, hx]
  | cons b l ih =>
    unfold List.orderedInsert
    split
    · rename_i hr
      have hkb : lineKey b = 9999 := by
        have := lineKey_le b
        omega
      have hb : (searchCap timeMatchAt b).isNone = true :=
        (lineKey_eq_iff_noTime b).mp hkb
      simp [List.filter, hx, hb]
    · rename_i hr
      have hkb : lineKey b ≠ 9999 := by
        intro he
        exact hr (by omega)
      have hb : (searchCap timeMatchAt b).isNone = false := by
        cases hbb : (searchCap timeMatchAt b).isNone with
        | false => rfl
        | true => exact absurd ((lineKey_eq_iff_noTime b).mpr hbb) hkb
      simp only [List.filter, hb]
      simp [ih]

/-- Helper: the stable sort keeps the no-time lines in original order. -/
theorem noTime_filter_insertionSort (l : List Text) :
    (List.insertionSort (fun a b => lineKey a ≤ lineKey b) l).filter
      (fun s => (searchCap timeMatchAt s).isNone) =
    l.filter (fun s => (searchCap timeMatchAt s).isNone) := by
  induction l with
  | nil => rfl
  | cons a l ih =>
    simp only [List.insertionSort]
    cases ha : (searchCap timeMatchAt a).isNone with
    | true =>
      rw [noTime_filter_orderedInsert_pos a _ ha, ih]
      simp [List.filter, ha]
    | false =>
      rw [noTime_filter_orderedInsert_neg a _ ha, ih]
      simp [List.filter, ha]

/-- Helper: in a key-sorted list the timed lines form a prefix and the
no-time lines a suffix. -/
theorem sorted_noTime_partition (l : List Text)
    (hp : List.Pairwise (fun a b => lineKey a ≤ lineKey b) l) :
    l = l.filter (fun s => !(searchCap timeMatchAt s).isNone) ++
      l.filter (fun s => (searchCap timeMatchAt s).isNone) := by
  induction l with
  | nil => rfl
  | cons a l ih =>
    rw [List.pairwise_cons] at hp
    obtain ⟨ha, hp'⟩ := hp
    cases han : (searchCap timeMatchAt a).isNone with
    | false =>
      simp only [List.filter, han, Bool.not_false]
      rw [List.cons_append]
      exact congrArg (a :: ·) (ih hp')
    | true =>
      have hka : lineKey a = 9999 := (lineKey_eq_iff_noTime a).mpr han
      have hall : ∀ b ∈ l, (searchCap timeMatchAt b).isNone = true := by
        intro b hb
        have h1 := ha b hb
        have h2 := lineKey_le b
        exact (lineKey_eq_iff_noTime b).mp (by omega)
      have hf1 : l.filter (fun s => !(searchCap timeMatchAt s).isNone) = [] := by
        rw [List.filter_eq_nil_iff]
        intro b hb
        simp [hall b hb]
      have hf2 : l.filter (fun s => (searchCap timeMatchAt s).isNone) = l := by
        rw [List.filter_eq_self]
        intro b hb
        simp [hall b hb]
      simp only [List.filter, han, Bool.not_true, hf1, hf2]
      rfl

/-- C9: the timed block of a rendered day is a permutation of the collected
timed lines, sorted ascending by the first clock time found in each line
(key 9999 when none); the lines with no discoverable time keep their
original relative order and sit after all timed lines. -/
theorem timed_lines_sorted (events : List (Text × Option DT × Option DT))
    (tasks : List (Text × Option DT)) (day_start day_end : DT) :
    ((split_items_for_day events tasks day_start day_end).1).Perm
      (collectTimed events tasks day_start day_end) ∧
    List.Pairwise (fun a b => lineKey a ≤ lineKey b)
      (split_items_for_day events tasks day_start day_end).1 ∧
    ((split_items_for_day events tasks day_start day_end).1).filter
        (fun s => (searchCap timeMatchAt s).isNone) =
      (collectTimed events tasks day_start day_end).filter
        (fun s => (searchCap timeMatchAt s).isNone) ∧
    (split_items_for_day events tasks day_start day_end).1 =
      ((split_items_for_day events tasks day_start day_end).1).filter
        (fun s => !(searchCap timeMatchAt s).isNone) ++
      ((split_items_for_day events tasks day_start day_end).1).filter
        (fun s => (searchCap timeMatchAt s).isNone) := by
  have hout : (split_items_for_day events tasks day_start day_end).1 =
      List.insertionSort (fun a b => lineKey a ≤ lineKey b)
        (collectTimed events tasks day_start day_end) := rfl
  have hsorted : List.Pairwise (fun a b => lineKey a ≤ lineKey b)
      (split_items_for_day events tasks day_start day_end).1 := by
    rw [hout]
    letI : IsTotal Text (fun a b => lineKey a ≤ lineKey b) :=
      ⟨fun a b => Nat.le_total _ _⟩
    letI : IsTrans Text (fun a b => lineKey a ≤ lineKey b) :=
      ⟨fun a b c => Nat.le_trans⟩
    exact List.sorted_insertionSort _ _
  refine ⟨?_, hsorted, ?_, ?_⟩
  · rw [hout]
    exact List.perm_insertionSort _ _
  · rw [hout]
    exact noTime_filter_insertionSort _
  · exact sorted_noTime_partition _ hsorted

/-- Helper: the cleaned title is never empty (placeholder fallback). -/
theorem cleanedTitle_ne_nil (text : Text) : cleanedTitle text ≠ [] := by
  simp only [cleanedTitle]
  split
  · decide
  · rename_i h
    intro hc
    rw [hc] at h
    exact absurd rfl h

set_option maxRecDepth 4000 in
/-- C8 (counterexample): a cleaned 127-character title whose 117th
character region ends in a space is truncated to 116 characters plus the
ellipsis (the code right-strips the 117-character prefix first), so the
result is not the first 117 characters plus an ellipsis marker. -/
theorem title_truncation_counterexample :
    (split_title_desc (List.replicate 116 'a' ++ ' ' :: List.replicate 10 'b')).1 =
      List.replicate 116 'a' ++ txt "..." ∧
    (split_title_desc (List.replicate 116 'a' ++ ' ' :: List.replicate 10 'b')).1 ≠
      (cleanedTitle (List.replicate 116 'a' ++ ' ' :: List.replicate 10 'b')).take 117 ++
        txt "..." ∧
    120 < (cleanedTitle (List.replicate 116 'a' ++ ' ' :: List.replicate 10 'b')).length := by
  decide

/-- C8 (amended): the produced title is never empty (placeholder fallback
included), and a cleaned title longer than 120 characters is replaced by
its first 117 characters with trailing whitespace removed plus an ellipsis
marker; otherwise the cleaned title is returned as is. -/
theorem title_nonempty_and_truncation (text : Text) :
    (split_title_desc text).1 ≠ [] ∧
    (120 < (cleanedTitle text).length →
      (split_title_desc text).1 =
        pyRStrip ((cleanedTitle text).take 117) ++ txt "...") ∧
    ((cleanedTitle text).length ≤ 120 →
      (split_title_desc text).1 = cleanedTitle text) := by
  simp only [split_title_desc]
  by_cases hempty : (pyStrip text).isEmpty
  · have hraw : pyStrip text = [] := by
      cases hp : pyStrip text with
      | nil => rfl
      | cons c s => rw [hp] at hempty; simp [List.isEmpty] at hempty
    have hct : cleanedTitle text = txt "Без названия" := by
      unfold cleanedTitle
      rw [hraw]
      rfl
    simp only [hempty, if_true]
    refine ⟨by decide, ?_, ?_⟩
    · intro h
      rw [hct] at h
      exact absurd h (by decide)
    · intro _
      rw [hct]
  · simp only [hempty, Bool.false_eq_true, if_false]
    by_cases hlen : 120 < (cleanedTitle text).length
    · rw [if_pos hlen]
      refine ⟨?_, fun _ => rfl, fun h => absurd hlen (not_lt.mpr h)⟩
      intro hc
      exact absurd (List.append_eq_nil.mp hc).2 (by decide)
    · rw [if_neg hlen]
      exact ⟨cleanedTitle_ne_nil text, fun h => absurd h hlen, fun _ => rfl⟩

/-- C8 (witness): the truncation clause applied to the 127-character
counterexample title. -/
theorem title_nonempty_and_truncation_witness :
    (split_title_desc (List.replicate 116 'a' ++ ' ' :: List.replicate 10 'b')).1 =
      pyRStrip ((cleanedTitle (List.replicate 116 'a' ++ ' ' ::
        List.replicate 10 'b')).take 117) ++ txt "..." :=
  (title_nonempty_and_truncation
    (List.replicate 116 'a' ++ ' ' :: List.replicate 10 'b')).2.1
    (by set_option maxRecDepth 4000 in decide)

/-- Helper: dropWhile never lengthens a list. -/
theorem dropWhile_len (p : Char → Bool) (l : Text) :
    (l.dropWhile p).length ≤ l.length :=
  (List.dropWhile_sublist _).length_le

/-- Helper: a literal match consumes exactly the pattern's length. -/
theorem litCI_length : ∀ (p s r : Text), litCI p s = some r →
    r.length + p.length = s.length := by
  intro p
  induction p with
  | nil => intro s r h; cases h; simp
  | cons a p' ih =>
    intro s r h
    cases s with
    | nil => cases h
    | cons c s' =>
      unfold litCI at h
      split at h
      · have := ih s' r h
        simp
        omega
      · cases h

/-- Helper: `\s+` consumes at least one character. -/
theorem ws1_len (s r : Text) (h : ws1 s = some r) : r.length < s.length := by
  cases s with
  | nil => cases h
  | cons c s' =>
    simp only [ws1] at h
    by_cases hc : isPySpace c = true
    · rw [if_pos hc] at h
      simp only [Option.some.injEq] at h
      subst h
      have := dropWhile_len isPySpace s'
      simp only [List.length_cons]
      omega
    · rw [if_neg hc] at h
      cases h

/-- Helper: an alternation match never lengthens the rest. -/
theorem altLit_len : ∀ (ws : List Text) (s w r : Text),
    altLit ws s = some (w, r) → r.length ≤ s.length := by
  intro ws
  induction ws with
  | nil => intro s w r h; cases h
  | cons v ws' ih =>
    intro s w r h
    unfold altLit at h
    cases hl : litCI v s with
    | some r2 =>
      simp only [hl] at h
      simp only [Option.some.injEq, Prod.mk.injEq] at h
      obtain ⟨hw, hr⟩ := h
      subst hr
      have := litCI_length v s r2 hl
      omega
    | none =>
      simp only [hl] at h
      exact ih s w r h

/-- Helper: a bounded alternation match never lengthens the rest. -/
theorem altLitBnd_len : ∀ (ws : List Text) (s w r : Text),
    altLitBnd ws s = some (w, r) → r.length ≤ s.length := by
  intro ws
  induction ws with
  | nil => intro s w r h; cases h
  | cons v ws' ih =>
    intro s w r h
    unfold altLitBnd at h
    cases hl : litCI v s with
    | some r2 =>
      simp only [hl] at h
      split at h
      · simp only [Option.some.injEq, Prod.mk.injEq] at h
        obtain ⟨hw, hr⟩ := h
        subst hr
        have := litCI_length v s r2 hl
        omega
      · exact ih s w r h
    | none =>
      simp only [hl] at h
      exact ih s w r h

/-- Helper: the duration-key group plus `\s+` consumes characters. -/
theorem durKey_len (s r : Text) (h : durKey s = some r) : r.length < s.length := by
  unfold durKey at h
  cases h1 : litCI (txt "на") s with
  | some r1 =>
    simp only [h1] at h
    have e1 := litCI_length _ s r1 h1
    have e2 := ws1_len r1 r h
    simp [txt] at e1
    omega
  | none =>
    simp only [h1] at h
    cases h2 : litCI (txt "продлится") s with
    | some r2 =>
      simp only [h2] at h
      have e1 := litCI_length _ s r2 h2
      have e2 := ws1_len r2 r h
      simp [txt] at e1
      omega
    | none =>
      simp only [h2] at h
      cases h3 : litCI (txt "продолжится") s with
      | some r3 =>
        simp only [h3] at h
        have e1 := litCI_length _ s r3 h3
        have e2 := ws1_len r3 r h
        simp [txt] at e1
        omega
      | none =>
        simp only [h3] at h
        cases h4 : litCI (txt "длительн") s with
        | some r4 =>
          simp only [h4] at h
          have e1 := litCI_length _ s r4 h4
          have e2 := ws1_len _ r h
          have e3 := dropWhile_len isPyWordChar r4
          simp [txt] at e1
          omega
        | none => simp only [h4] at h; cases h

/-- Helper: the hour unit never lengthens the rest. -/
theorem hourUnit_len (s r : Text) (h : hourUnit s = some r) :
    r.length ≤ s.length := by
  have l1 : (txt "час").length = 3 := rfl
  have l2 : (txt "ов").length = 2 := rfl
  have l3 : (txt "ч").length = 1 := rfl
  unfold hourUnit at h
  split at h <;> try (split at h) <;> try (split at h) <;> try (split at h)
  case h_1.h_1.isTrue x s4 c r' heq hcond =>
    cases h
    have e1 := litCI_length _ s _ heq
    rw [l1] at e1
    simp only [List.length_cons] at e1
    omega
  case h_1.h_1.isFalse.h_1 x1 s4 c r1 heq1 hcond x2 r2 heq2 =>
    have e1 := litCI_length _ s _ heq1
    rw [l1] at e1
    simp only [List.length_cons] at e1
    have e2 := litCI_length _ _ _ heq2
    rw [l2] at e2
    simp only [List.length_cons] at e2
    split at h
    · cases h
      omega
    · split at h
      · cases h
        simp only [List.length_cons]
        omega
      · cases h
  case h_1.h_1.isFalse.h_2 x1 s4 c r1 heq1 hcond x2 heq2 =>
    have e1 := litCI_length _ s _ heq1
    rw [l1] at e1
    simp only [List.length_cons] at e1
    split at h
    · cases h
      simp only [List.length_cons]
      omega
    · cases h
  case h_1.h_2 x s4 heq =>
    cases h
    simp
  case h_2.h_1.isTrue x1 heq1 x2 r2 heq2 hbnd =>
    cases h
    have e2 := litCI_length _ s _ heq2
    rw [l3] at e2
    omega
  case h_2.h_1.isFalse x1 heq1 x2 r2 heq2 hbnd => cases h
  case h_2.h_2 x1 heq1 x2 heq2 => cases h

/-- Helper: the loose minutes unit never lengthens the rest. -/
theorem minUnitLoose_len (s r : Text) (h : minUnitLoose s = some r) :
    r.length ≤ s.length := by
  unfold minUnitLoose at h
  cases ha : altLit [txt "минуты", txt "минута", txt "минут", txt "мин"] s with
  | some wr =>
    obtain ⟨w, r2⟩ := wr
    simp only [ha, Option.some.injEq] at h
    subst h
    exact altLit_len _ s w r2 ha
  | none => rw [ha] at h; cases h

/-- Helper: the bounded minutes unit never lengthens the rest. -/
theorem minUnitBnd_len (s r : Text) (h : minUnitBnd s = some r) :
    r.length ≤ s.length := by
  unfold minUnitBnd at h
  cases ha : altLitBnd [txt "минуты", txt "минута", txt "минут", txt "мин"] s with
  | some wr =>
    obtain ⟨w, r2⟩ := wr
    simp only [ha, Option.some.injEq] at h
    subst h
    exact altLitBnd_len _ s w r2 ha
  | none => rw [ha] at h; cases h

/-- Helper: the optional minutes tail never lengthens the rest. -/
theorem minsOptTail_len (s : Text) (n : Nat) (r : Text)
    (h : minsOptTail s = some (n, r)) : r.length ≤ s.length := by
  simp only [minsOptTail] at h
  split at h
  · cases h
  · rename_i hds
    cases hm : minUnitLoose (wsStar ((digitsSplit (wsStar s)).2)) with
    | some r2 =>
      simp only [hm, Option.some.injEq, Prod.mk.injEq] at h
      obtain ⟨hn, hr⟩ := h
      subst hr
      have e1 := minUnitLoose_len _ r2 hm
      have e2 := dropWhile_len isPySpace ((digitsSplit (wsStar s)).2)
      have e3 : ((digitsSplit (wsStar s)).2).length ≤ (wsStar s).length := by
        unfold digitsSplit
        exact dropWhile_len _ _
      have e4 := dropWhile_len isPySpace s
      unfold wsStar at e1 e2 e3 e4
      omega
    | none => rw [hm] at h; cases h

/-- Helper: a DURATION_PATTERN match is nonempty. -/
theorem durMatchAt_len (prev : Option Char) (s : Text) (g : Nat × Option Nat)
    (r : Text) (h : durMatchAt prev s = some (g, r)) : r.length < s.length := by
  unfold durMatchAt at h
  split at h <;> try (split at h) <;> try (split at h) <;> try (split at h) <;> try (split at h)
  case isFalse => cases h
  case isTrue.h_1 x heq => cases h
  case isTrue.h_2.isTrue x2 s1 heqk x1 ds r2 heqd hds => cases h
  case isTrue.h_2.isFalse.h_1 x2 s1 heqk x1 ds r2 heqd hds x0 hequ => cases h
  case isTrue.h_2.isFalse.h_2 x2 s1 heqk x1 ds r2 heqd hds x0 s3 hequ =>
    have e1 := durKey_len s s1 heqk
    have e2 : r2.length ≤ s1.length := by
      have hpr : (digitsSplit s1).2 = r2 := by rw [heqd]
      rw [← hpr]
      unfold digitsSplit
      exact dropWhile_len _ _
    have e3 := dropWhile_len isPySpace r2
    have e4 := hourUnit_len _ _ hequ
    unfold wsStar at e4
    split at h
    · rename_i x5 m s4 heqm
      cases h
      have e5 := minsOptTail_len s3 _ _ heqm
      omega
    · rename_i x5 heqm
      cases h
      omega

/-- Helper: a DURATION_MINS_ONLY_PATTERN match is nonempty. -/
theorem durMinsOnlyMatchAt_len (prev : Option Char) (s : Text) (n : Nat)
    (r : Text) (h : durMinsOnlyMatchAt prev s = some (n, r)) :
    r.length < s.length := by
  unfold durMinsOnlyMatchAt at h
  split at h <;> try (split at h) <;> try (split at h) <;> try (split at h) <;> try (split at h)
  case isFalse => cases h
  case isTrue.h_1 x heq => cases h
  case isTrue.h_2.isTrue x2 s1 heqk x1 ds r2 heqd hds => cases h
  case isTrue.h_2.isFalse.h_1 x2 s1 heqk x1 ds r2 heqd hds x0 r3 hequ =>
    cases h
    have e1 := durKey_len s s1 heqk
    have e2 : r2.length ≤ s1.length := by
      have hpr : (digitsSplit s1).2 = r2 := by rw [heqd]
      rw [← hpr]
      unfold digitsSplit
      exact dropWhile_len _ _
    have e3 := dropWhile_len isPySpace r2
    have e4 := minUnitBnd_len _ _ hequ
    unfold wsStar at e4
    omega
  case isTrue.h_2.isFalse.h_2 x2 s1 heqk x1 ds r2 heqd hds x0 hequ => cases h

/-- Helper: searching with a consuming matcher removes characters. -/
theorem searchGo_len {γ : Type} (m : Option Char → Text → Option (γ × Text))
    (hm : ∀ prev s g rest, m prev s = some (g, rest) → rest.length < s.length) :
    ∀ s acc prev b g rest, searchGo m acc prev s = some (b, g, rest) →
      b.length + rest.length < acc.length + s.length := by
  intro s
  induction s with
  | nil =>
    intro acc prev b g rest h
    rw [searchGo.eq_1] at h
    cases hmm : m prev [] with
    | some gr =>
      obtain ⟨g2, r2⟩ := gr
      have := hm prev [] g2 r2 hmm
      simp at this
    | none => rw [hmm] at h; cases h
  | cons c s' ih =>
    intro acc prev b g rest h
    rw [searchGo.eq_2] at h
    cases hmm : m prev (c :: s') with
    | some gr =>
      obtain ⟨g2, r2⟩ := gr
      rw [hmm] at h
      cases h
      have := hm prev (c :: s') _ _ hmm
      simp only [List.length_cons, List.length_reverse] at *
      omega
    | none =>
      rw [hmm] at h
      have := ih (c :: acc) (some c) b g rest h
      simp only [List.length_cons] at *
      omega

/-- Helper: stripping `" ,.-"` never lengthens a text. -/
theorem stripSet_len (s : Text) : (stripSet s).length ≤ s.length := by
  unfold stripSet
  have e1 := dropWhile_len isStripChar s
  have e2 := dropWhile_len isStripChar (s.dropWhile isStripChar).reverse
  simp only [List.length_reverse] at *
  omega

/-- Helper: re-joining split words never lengthens a text. -/
theorem joinWords_wordsGo_len : ∀ (s acc : Text),
    (joinWords (wordsGo s acc)).length ≤ s.length + acc.length := by
  intro s
  induction s with
  | nil =>
    intro acc
    unfold wordsGo
    split
    · simp [joinWords]
    · simp [joinWords]
  | cons c s' ih =>
    intro acc
    unfold wordsGo
    split
    · split
      · have := ih []
        simp only [List.length_cons, List.length_nil, Nat.add_zero] at *
        omega
      · cases hw : wordsGo s' [] with
        | nil =>
          simp [joinWords]
        | cons w ws =>
          have heq : joinWords (acc.reverse :: w :: ws) =
              acc.reverse ++ ' ' :: joinWords (w :: ws) := rfl
          rw [heq]
          have hih := ih []
          rw [hw] at hih
          simp only [List.length_append, List.length_cons, List.length_reverse,
            List.length_nil, Nat.add_zero] at *
          omega
    · have := ih (c :: acc)
      simp only [List.length_cons] at *
      omega

/-- Helper: whitespace normalization never lengthens a text. -/
theorem stripSpaces_len (s : Text) : (stripSpaces s).length ≤ s.length := by
  unfold stripSpaces
  have := joinWords_wordsGo_len s []
  simp at this
  exact this

/-- C4 (counterexample): on `на 1 час на 2 часа` the extractor removes only
the first phrase, and re-parsing the stripped remainder finds a second
duration phrase — it returns Some with a changed remainder, not None with
the remainder unchanged. -/
theorem duration_reparse_counterexample :
    parse_duration (txt "на 1 час на 2 часа") = (some 3600, txt "на 2 часа") ∧
    (parse_duration (txt "на 2 часа")).1 = some 7200 ∧
    (parse_duration (txt "на 2 часа")).1 ≠ none ∧
    (parse_duration (txt "на 2 часа")).2 ≠ txt "на 2 часа" := by decide

/-- C4 (amended): each call consumes at most one duration phrase — a call
that finds no phrase returns the text unchanged (so re-parsing is a no-op
on phrase-free texts), and a successful call returns a strictly shorter
remainder, so repeated extraction terminates; the remainder may still
contain further duration phrases when the input had more than one. -/
theorem parse_duration_consumes_one_phrase (t : Text) :
    ((parse_duration t).1 = none → parse_duration t = (none, t)) ∧
    (∀ d, (parse_duration t).1 = some d →
      (parse_duration t).2.length < t.length) := by
  unfold parse_duration searchT
  cases h1 : searchGo durMatchAt [] none t with
  | some x =>
    obtain ⟨before, g, after⟩ := x
    obtain ⟨hh, hm⟩ := g
    simp only [h1]
    constructor
    · intro hc
      simp at hc
    · intro d _
      have hlen := searchGo_len durMatchAt durMatchAt_len t [] none
        before (hh, hm) after h1
      have e1 := stripSpaces_len (stripSet (before ++ after))
      have e2 := stripSet_len (before ++ after)
      simp only [List.length_append, List.length_nil, Nat.zero_add] at *
      omega
  | none =>
    simp only [h1]
    cases h2 : searchGo durMinsOnlyMatchAt [] none t with
    | some x =>
      obtain ⟨before, n, after⟩ := x
      simp only [h2]
      constructor
      · intro hc
        simp at hc
      · intro d _
        have hlen := searchGo_len durMinsOnlyMatchAt durMinsOnlyMatchAt_len
          t [] none before n after h2
        have e1 := stripSpaces_len (stripSet (before ++ after))
        have e2 := stripSet_len (before ++ after)
        simp only [List.length_append, List.length_nil, Nat.zero_add] at *
        omega
    | none =>
      simp only [h2]
      exact ⟨fun _ => trivial, fun d hd => by simp at hd⟩

/-- C4 (witness): the strict-shrinking clause applied to `на 30 минут`. -/
theorem parse_duration_consumes_one_phrase_witness :
    (parse_duration (txt "на 30 минут")).2.length <
      (txt "на 30 минут").length :=
  (parse_duration_consumes_one_phrase (txt "на 30 минут")).2 1800 (by decide)
